import Mathlib

/-!
A shallow embedding of the capability-dispatch control plane implemented in
`src/mcp_host/global_server` (ToolRegistry, ServiceDiscovery, Router and the
composed GlobalMCPServer orchestrator), together with theorems settling the
frozen claims about it.

Python dictionaries are modelled as insertion-ordered association lists
(`List (String × α)`): updating an existing key rewrites it in place, a new
key is appended at the tail, deletion preserves the order of the remaining
entries — exactly the observable ordering behaviour of CPython dicts (whose
keys are unique, so replacing the first occurrence of a key is replacing its
only occurrence).  `datetime.utcnow()` timestamps are modelled as natural
numbers supplied explicitly to every time-dependent operation, with monotone
advancement captured by the operation sequences used for reachability.
-/

/-- Dictionary lookup `m.get(k)`: value of the first entry with key `k`. -/
def lookupA {α : Type} (k : String) : List (String × α) → Option α
  | [] => none
  | p :: ps => if p.1 == k then some p.2 else lookupA k ps

/-- Dictionary write `m[k] = v`: rewrites an existing key in place,
appends a fresh key at the tail (CPython dict semantics). -/
def insertA {α : Type} (k : String) (v : α) : List (String × α) →
    List (String × α)
  | [] => [(k, v)]
  | p :: ps => if p.1 == k then (k, v) :: ps else p :: insertA k v ps

/-- Dictionary deletion `del m[k]` (no-op when the key is absent). -/
def eraseA {α : Type} (k : String) (m : List (String × α)) :
    List (String × α) :=
  m.filter (fun p => p.1 != k)

theorem lookupA_insertA_self {α : Type} (k : String) (v : α)
    (m : List (String × α)) : lookupA k (insertA k v m) = some v := by
  induction m with
  | nil => simp [insertA, lookupA]
  | cons p ps ih =>
    by_cases hp : p.1 == k
    · simp [insertA, lookupA, hp]
    · simp [insertA, lookupA, hp, ih]

theorem lookupA_insertA_ne {α : Type} (k k' : String) (v : α)
    (m : List (String × α)) (hne : k' ≠ k) :
    lookupA k' (insertA k v m) = lookupA k' m := by
  induction m with
  | nil => simp [insertA, lookupA, Ne.symm hne]
  | cons p ps ih =>
    by_cases hp : p.1 == k
    · have hpk : p.1 = k := by simpa using hp
      simp [insertA, lookupA, hp, hpk, Ne.symm hne]
    · by_cases hp' : p.1 == k'
      · simp [insertA, lookupA, hp, hp']
      · simp [insertA, lookupA, hp, hp', ih]

theorem lookupA_eraseA_self {α : Type} (k : String) (m : List (String × α)) :
    lookupA k (eraseA k m) = none := by
  induction m with
  | nil => simp [eraseA, lookupA]
  | cons p ps ih =>
    by_cases hp : p.1 == k
    · have h1 : (p.1 != k) = false := by simp [bne, hp]
      simpa [eraseA, List.filter_cons, h1] using ih
    · have h1 : (p.1 != k) = true := by simp [bne, hp]
      simpa [eraseA, List.filter_cons, h1, lookupA, hp] using ih

theorem lookupA_eraseA_ne {α : Type} (k k' : String) (m : List (String × α))
    (hne : k' ≠ k) : lookupA k' (eraseA k m) = lookupA k' m := by
  induction m with
  | nil => simp [eraseA, lookupA]
  | cons p ps ih =>
    by_cases hp : p.1 == k
    · have hpk : p.1 = k := by simpa using hp
      have h1 : (p.1 != k) = false := by simp [bne, hp]
      have h2 : (p.1 == k') = false := by simp [hpk, Ne.symm hne]
      simpa [eraseA, List.filter_cons, h1, lookupA, h2] using ih
    · have h1 : (p.1 != k) = true := by simp [bne, hp]
      by_cases hp' : p.1 == k'
      · simp [eraseA, List.filter_cons, h1, lookupA, hp']
      · simpa [eraseA, List.filter_cons, h1, lookupA, hp'] using ih

/-- An entry of the list after an insert is either the written binding or an
entry of the original list. -/
theorem mem_insertA {α : Type} {k : String} {v : α} {m : List (String × α)}
    {p : String × α} (hp : p ∈ insertA k v m) :
    p = (k, v) ∨ p ∈ m := by
  induction m with
  | nil => simpa [insertA] using hp
  | cons q qs ih =>
    by_cases hq : q.1 == k
    · simp only [insertA, hq, if_pos rfl] at hp
      rcases List.mem_cons.mp hp with h | h
      · left; exact h
      · right; exact List.mem_cons_of_mem _ h
    · simp only [insertA, hq] at hp
      rcases List.mem_cons.mp (by simpa using hp) with h | h
      · right; exact h ▸ List.mem_cons_self _ _
      · rcases ih h with h' | h'
        · left; exact h'
        · right; exact List.mem_cons_of_mem _ h'

theorem mem_eraseA {α : Type} {k : String} {m : List (String × α)}
    {p : String × α} (hp : p ∈ eraseA k m) : p ∈ m :=
  List.mem_of_mem_filter hp

/-- A present key looks up to the value of some entry of the list. -/
theorem lookupA_some_mem {α : Type} {k : String} {m : List (String × α)}
    {v : α} (h : lookupA k m = some v) : (k, v) ∈ m := by
  induction m with
  | nil => simp [lookupA] at h
  | cons p ps ih =>
    by_cases hp : p.1 == k
    · have hpk : p.1 = k := by simpa using hp
      simp only [lookupA, hp] at h
      have hpe : p = (k, v) := by
        cases p
        simp_all
      rw [← hpe]
      exact List.mem_cons_self _ _
    · simp only [lookupA, hp] at h
      exact List.mem_cons_of_mem _ (ih (by simpa using h))

/-! ## Data model (`service_discovery.py`, `tool_registry.py`) -/

/-- Embeds `ServerMetadata` dataclass of `service_discovery.py` (timestamps as
naturals, the open-ended `metadata` dict as a string association list, the
`tags` set as a duplicate-free list). -/
structure ServerMetadata where
  serverId : String
  name : String
  description : String
  version : String
  host : String
  port : Nat
  lastHeartbeat : Nat
  tags : List String
  metadata : List (String × String)
  isActive : Bool
deriving Repr, DecidableEq

/-- Internal state of a `ServiceDiscovery` instance: the `_servers` dict,
the `_tags_index` dict and the configured `heartbeat_timeout` (in the same
time unit as the timestamps). -/
structure SDState where
  servers : List (String × ServerMetadata)
  tagsIndex : List (String × List String)
  heartbeatTimeout : Nat
deriving Repr, DecidableEq

/-- Embeds `ServiceDiscovery.__init__`. -/
def initSD (timeout : Nat) : SDState :=
  { servers := [], tagsIndex := [], heartbeatTimeout := timeout }

/-- Add a member to the set stored at a key of a tags index
(`self._tags_index[tag].add(x)` with creation of a missing key). -/
def addToIndex (idx : List (String × List String)) (tag x : String) :
    List (String × List String) :=
  match lookupA tag idx with
  | none => insertA tag [x] idx
  | some xs => if x ∈ xs then idx else insertA tag (xs ++ [x]) idx

/-- Discard a member from the set stored at a key of a tags index,
dropping the key when its set becomes empty (the removal pattern used by
`ServiceDiscovery.unregister_server` and `ToolRegistry.unregister_tool`). -/
def dropFromIndex (idx : List (String × List String)) (tag x : String) :
    List (String × List String) :=
  match lookupA tag idx with
  | none => idx
  | some xs =>
    let xs' := xs.erase x
    if xs' = [] then eraseA tag idx else insertA tag xs' idx

/-- Embeds `ServiceDiscovery.register_server`.  The freshly generated
`srv_<uuid>` id is passed in as `serverId` (modelling the uuid draw). -/
def sdRegisterServer (sd : SDState) (serverId : String) (name description
    version host : String) (port : Nat) (tags : List String)
    (metadata : List (String × String)) (now : Nat) : SDState :=
  let record : ServerMetadata :=
    { serverId := serverId, name := name, description := description,
      version := version, host := host, port := port,
      lastHeartbeat := now, tags := tags, metadata := metadata,
      isActive := true }
  { sd with
    servers := insertA serverId record sd.servers,
    tagsIndex := tags.foldl (fun idx tag => addToIndex idx tag serverId)
      sd.tagsIndex }

/-- Embeds `ServiceDiscovery.unregister_server`. -/
def sdUnregisterServer (sd : SDState) (serverId : String) :
    SDState × Bool :=
  match lookupA serverId sd.servers with
  | none => (sd, false)
  | some record =>
    ({ sd with
       servers := eraseA serverId sd.servers,
       tagsIndex := record.tags.foldl
         (fun idx tag => dropFromIndex idx tag serverId) sd.tagsIndex },
     true)

/-- Embeds `ServiceDiscovery.record_heartbeat`. -/
def sdRecordHeartbeat (sd : SDState) (serverId : String) (now : Nat) :
    SDState × Bool :=
  match lookupA serverId sd.servers with
  | none => (sd, false)
  | some record =>
    ({ sd with
       servers := insertA serverId
         { record with lastHeartbeat := now, isActive := true }
         sd.servers },
     true)

/-- Embeds `ServiceDiscovery.check_health`: flips `is_active` to false for every
record whose heartbeat is older than the timeout (and touches nothing
else — in particular it never flips a flag back to true). -/
def sdCheckHealth (sd : SDState) (now : Nat) : SDState :=
  { sd with
    servers := sd.servers.map (fun p =>
      (p.1,
       if now - p.2.lastHeartbeat > sd.heartbeatTimeout then
         { p.2 with isActive := false }
       else p.2)) }

/-- Embeds `ServiceDiscovery.get_server`. -/
def sdGetServer (sd : SDState) (serverId : String) :
    Option ServerMetadata :=
  lookupA serverId sd.servers

/-- Embeds `ToolMetadata` dataclass of `tool_registry.py` (the two opaque schema
documents as string association lists). -/
structure ToolMetadata where
  name : String
  description : String
  inputSchema : List (String × String)
  outputSchema : List (String × String)
  tags : List String
  serverId : Option String
  version : String
  lastUpdated : Nat
  isActive : Bool
deriving Repr, DecidableEq

/-- Internal state of a `ToolRegistry` instance: the `_tools`,
`_server_tools` and `_tags_index` dicts. -/
structure TRState where
  tools : List (String × ToolMetadata)
  serverTools : List (String × List String)
  tagsIndex : List (String × List String)
deriving Repr, DecidableEq

def initTR : TRState := { tools := [], serverTools := [], tagsIndex := [] }

/-- Embeds `ToolRegistry.register_tool`.  The generated `tool_<uuid>` id is passed
in as `toolId`; `now` models `datetime.utcnow()` stamped on the record. -/
def trRegisterTool (tr : TRState) (toolId : String) (tm : ToolMetadata)
    (now : Nat) : TRState :=
  let tm' := { tm with lastUpdated := now }
  { tools := insertA toolId tm' tr.tools,
    serverTools :=
      match tm.serverId with
      | none => tr.serverTools
      | some sid => addToIndex tr.serverTools sid toolId,
    tagsIndex := tm.tags.foldl (fun idx tag => addToIndex idx tag toolId)
      tr.tagsIndex }

/-- Embeds `ToolRegistry.unregister_tool`. -/
def trUnregisterTool (tr : TRState) (toolId : String) : TRState × Bool :=
  match lookupA toolId tr.tools with
  | none => (tr, false)
  | some tm =>
    ({ tools := eraseA toolId tr.tools,
       serverTools :=
         match tm.serverId with
         | none => tr.serverTools
         | some sid => dropFromIndex tr.serverTools sid toolId,
       tagsIndex := tm.tags.foldl
         (fun idx tag => dropFromIndex idx tag toolId) tr.tagsIndex },
     true)

/-- Embeds `ToolRegistry.get_tool`. -/
def trGetTool (tr : TRState) (toolId : String) : Option ToolMetadata :=
  lookupA toolId tr.tools

/-- Lowercase a string character by character (Python's `str.lower()`),
as an explicit character list. -/
def lowerChars (s : String) : List Char :=
  s.toList.map Char.toLower

/-- Case-insensitive substring test: Python's
`pattern.lower() in name.lower()`, on explicit character lists. -/
def prefOf : List Char → List Char → Bool
  | [], _ => true
  | _ :: _, [] => false
  | a :: as, b :: bs => a == b && prefOf as bs

def subOf (needle : List Char) : List Char → Bool
  | [] => needle.isEmpty
  | b :: bs => prefOf needle (b :: bs) || subOf needle bs

def containsCI (pat s : String) : Bool :=
  subOf (lowerChars pat) (lowerChars s)

/-- The tag-filter loop of `ToolRegistry.find_tools`: intersect the running
id set with each requested tag's index entry, bailing out with `none`
(Python: `return []`) as soon as a tag is entirely unindexed. -/
def tagsFilter (idx : List (String × List String)) :
    List String → List String → Option (List String)
  | [], ids => some ids
  | tag :: rest, ids =>
    match lookupA tag idx with
    | none => none
    | some s => tagsFilter idx rest (ids.filter (fun i => i ∈ s))

/-- Embeds `ToolRegistry.find_tools`.  Python's `None` / empty-valued optional
arguments are all falsy, so they are modelled directly by the empty list /
empty string, which the code treats identically. -/
def trFindTools (tr : TRState) (tags : List String) (serverId : String)
    (namePattern : String) : List ToolMetadata :=
  let toolIds := tr.tools.map (fun p => p.1)
  let toolIds :=
    if serverId ≠ "" ∧ (lookupA serverId tr.serverTools).isSome then
      toolIds.filter (fun i => i ∈ (lookupA serverId tr.serverTools).getD [])
    else toolIds
  match tagsFilter tr.tagsIndex tags toolIds with
  | none => []
  | some ids =>
    let ids :=
      if namePattern ≠ "" then
        ids.filter (fun i =>
          match lookupA i tr.tools with
          | some tm => containsCI namePattern tm.name
          | none => false)
      else ids
    ids.filterMap (fun i => lookupA i tr.tools)

/-- Embeds `ToolRegistry.get_server_tools`. -/
def trGetServerTools (tr : TRState) (serverId : String) :
    List ToolMetadata :=
  match lookupA serverId tr.serverTools with
  | none => []
  | some ids => ids.filterMap (fun i => lookupA i tr.tools)

/-- Embeds `ToolRegistry.get_all_tools`. -/
def trGetAllTools (tr : TRState) : List ToolMetadata :=
  tr.tools.map (fun p => p.2)

/-! ## Router (`router.py`) -/

/-- Internal state of a `Router` instance: the `_tool_to_servers` dict
(tool name → ordered candidate server-id list) and the `_server_load` dict
(server id → integer in-flight counter; `int` in Python, hence `Int`). -/
structure RouterState where
  toolToServers : List (String × List String)
  serverLoad : List (String × Int)
deriving Repr, DecidableEq

def initRouter : RouterState := { toolToServers := [], serverLoad := [] }

/-- Embeds `self._server_load.get(server_id, 0)`. -/
def loadOf (st : RouterState) (serverId : String) : Int :=
  (lookupA serverId st.serverLoad).getD 0

/-- Embeds `Router.update_tool_mapping`. -/
def updateToolMapping (st : RouterState) (toolName serverId : String) :
    RouterState :=
  let m0 :=
    if (lookupA toolName st.toolToServers).isSome then st.toolToServers
    else st.toolToServers ++ [(toolName, [])]
  let cur := (lookupA toolName m0).getD []
  if serverId ∈ cur then { st with toolToServers := m0 }
  else
    { toolToServers := insertA toolName (cur ++ [serverId]) m0,
      serverLoad := insertA serverId (loadOf st serverId) st.serverLoad }

/-- Embeds `Router.remove_tool_mapping`. -/
def removeToolMapping (st : RouterState) (toolName serverId : String) :
    RouterState :=
  match lookupA toolName st.toolToServers with
  | none => st
  | some ids =>
    if serverId ∈ ids then
      let ids' := ids.erase serverId
      if ids' = [] then
        { st with toolToServers := eraseA toolName st.toolToServers }
      else
        { st with toolToServers := insertA toolName ids' st.toolToServers }
    else st

/-- Embeds `Router.remove_server_mappings`: scan every tool entry, `list.remove`
the server from each candidate list containing it (first occurrence),
collect the affected tool names in iteration order, drop empty entries and
the server's load counter. -/
def removeServerMappings (st : RouterState) (serverId : String) :
    RouterState × List String :=
  let affected := (st.toolToServers.filter
    (fun p => serverId ∈ p.2)).map (fun p => p.1)
  let m' := st.toolToServers.filterMap (fun p =>
    if serverId ∈ p.2 then
      let ids' := p.2.erase serverId
      if ids' = [] then none else some (p.1, ids')
    else some p)
  ({ toolToServers := m', serverLoad := eraseA serverId st.serverLoad },
   affected)

/-- The liveness filter inside `Router.get_server_for_tool`: a candidate
survives when `service_discovery.get_server` finds it and the record's
`is_active` flag is set. -/
def liveRecord (sd : SDState) (serverId : String) : Option ServerMetadata :=
  match sdGetServer sd serverId with
  | none => none
  | some record => if record.isActive then some record else none

/-- Embeds `available_servers` of `Router.get_server_for_tool`. -/
def availableFor (sd : SDState) (st : RouterState) (toolName : String) :
    List (String × ServerMetadata) :=
  ((lookupA toolName st.toolToServers).getD []).filterMap
    (fun id => (liveRecord sd id).map (fun r => (id, r)))

/-- Python's `min(available, key=load)`: first element attaining the
minimal key value (later elements replace the running minimum only when
strictly smaller). -/
def minByLoad (st : RouterState) :
    (String × ServerMetadata) → List (String × ServerMetadata) →
    (String × ServerMetadata)
  | a, [] => a
  | a, b :: bs =>
    if loadOf st b.1 < loadOf st a.1 then minByLoad st b bs
    else minByLoad st a bs

/-- Embeds `Router.get_server_for_tool`.  The draw of `random.choice` in the
`"random"` branch is supplied as the `pick` argument (an arbitrary index
into the filtered candidate list). -/
def getServerForTool (sd : SDState) (st : RouterState)
    (toolName strategy : String) (pick : Nat) :
    RouterState × Option (String × ServerMetadata) :=
  match lookupA toolName st.toolToServers with
  | none => (st, none)
  | some serverIds =>
    let available := serverIds.filterMap
      (fun id => (liveRecord sd id).map (fun r => (id, r)))
    match available with
    | [] => (st, none)
    | first :: rest =>
      if strategy = "round_robin" then
        -- `self._tool_to_servers[tool_name][1:] + [server_id]`
        ({ toolToServers :=
             insertA toolName (serverIds.tail ++ [first.1]) st.toolToServers,
           serverLoad :=
             insertA first.1 (loadOf st first.1 + 1) st.serverLoad },
         some first)
      else if strategy = "random" then
        let chosen := (first :: rest).get
          ⟨pick % (rest.length + 1), Nat.mod_lt _ (Nat.succ_pos _)⟩
        ({ st with serverLoad :=
             insertA chosen.1 (loadOf st chosen.1 + 1) st.serverLoad },
         some chosen)
      else if strategy = "least_loaded" then
        let chosen := minByLoad st first rest
        ({ st with serverLoad :=
             insertA chosen.1 (loadOf st chosen.1 + 1) st.serverLoad },
         some chosen)
      else
        ({ st with serverLoad :=
             insertA first.1 (loadOf st first.1 + 1) st.serverLoad },
         some first)

/-- Embeds `Router.record_tool_completion`. -/
def recordToolCompletion (st : RouterState) (serverId : String) :
    RouterState :=
  match lookupA serverId st.serverLoad with
  | none => st
  | some v =>
    if v > 0 then
      { st with serverLoad := insertA serverId (v - 1) st.serverLoad }
    else st

/-! ## Orchestrator (`server.py`) -/

/-- The mutable state owned by a `GlobalMCPServer`: its `ToolRegistry`,
`ServiceDiscovery` and `Router` instances. -/
structure GState where
  tr : TRState
  sd : SDState
  router : RouterState
deriving Repr, DecidableEq

/-- Embeds `GlobalMCPServer.__init__`. -/
def initG (timeout : Nat) : GState :=
  { tr := initTR, sd := initSD timeout, router := initRouter }

/-- Embeds `GlobalMCPServer.register_tool`: registry insert, then — only when the
metadata carries a server id — a router mapping update.  No check that the
server id is known to ServiceDiscovery. -/
def gRegisterTool (g : GState) (toolId : String) (tm : ToolMetadata)
    (now : Nat) : GState :=
  let tr' := trRegisterTool g.tr toolId tm now
  let router' :=
    match tm.serverId with
    | none => g.router
    | some sid => updateToolMapping g.router tm.name sid
  { g with tr := tr', router := router' }

/-- Embeds `GlobalMCPServer.unregister_tool`. -/
def gUnregisterTool (g : GState) (toolId : String) : GState × Bool :=
  match trGetTool g.tr toolId with
  | none => (g, false)
  | some tm =>
    let router' :=
      match tm.serverId with
      | none => g.router
      | some sid => removeToolMapping g.router tm.name sid
    let (tr', ok) := trUnregisterTool g.tr toolId
    ({ g with tr := tr', router := router' }, ok)

/-- Embeds `GlobalMCPServer.register_server` (delegates to ServiceDiscovery). -/
def gRegisterServer (g : GState) (serverId : String) (name description
    version host : String) (port : Nat) (tags : List String)
    (metadata : List (String × String)) (now : Nat) : GState :=
  let sd' := sdRegisterServer g.sd serverId name description version
    host port tags metadata now
  { g with sd := sd' }

/-- Embeds `GlobalMCPServer.unregister_server`: purge the router mappings first,
then remove the server from ServiceDiscovery; the affected tool names are
only logged — the call returns ServiceDiscovery's boolean. -/
def gUnregisterServer (g : GState) (serverId : String) : GState × Bool :=
  let (router', _affected) := removeServerMappings g.router serverId
  let (sd', ok) := sdUnregisterServer g.sd serverId
  ({ g with router := router', sd := sd' }, ok)

/-- Embeds `GlobalMCPServer.record_heartbeat`. -/
def gRecordHeartbeat (g : GState) (serverId : String) (now : Nat) :
    GState × Bool :=
  let (sd', ok) := sdRecordHeartbeat g.sd serverId now
  ({ g with sd := sd' }, ok)

/-- Embeds `GlobalMCPServer.find_tools` restricted to the only call shape the
routing path uses (`name_pattern` alone, no tags, no server id): all
registry tools, filtered by case-insensitive substring when the pattern is
truthy (non-empty). -/
def gFindToolsByName (g : GState) (namePattern : String) :
    List ToolMetadata :=
  let tools := trGetAllTools g.tr
  if namePattern ≠ "" then
    tools.filter (fun tm => containsCI namePattern tm.name)
  else tools

/-- Outcome of `GlobalMCPServer.route_tool_request`: the two typed errors
of `exceptions.py` it can raise, or the selected server. -/
inductive RouteResult where
  | toolNotFound
  | serverNotFound
  | ok (serverId : String) (record : ServerMetadata)
deriving Repr, DecidableEq

/-- Embeds `GlobalMCPServer.route_tool_request`. -/
def routeToolRequest (g : GState) (toolName strategy : String)
    (pick : Nat) : GState × RouteResult :=
  if gFindToolsByName g toolName = [] then (g, RouteResult.toolNotFound)
  else
    let res := getServerForTool g.sd g.router toolName strategy pick
    match res.2 with
    | none => ({ g with router := res.1 }, RouteResult.serverNotFound)
    | some (sid, record) =>
      ({ g with router := res.1 }, RouteResult.ok sid record)

/-- Embeds `GlobalMCPServer.record_tool_completion`. -/
def gRecordToolCompletion (g : GState) (serverId : String) : GState :=
  { g with router := recordToolCompletion g.router serverId }

/-- One iteration of `GlobalMCPServer._health_check_loop` (the
reconciliation pass): recompute liveness, then purge the router mappings
of every server now marked inactive. -/
def gReconcile (g : GState) (now : Nat) : GState :=
  let sd' := sdCheckHealth g.sd now
  let router' := sd'.servers.foldl
    (fun acc p =>
      if p.2.isActive then acc
      else (removeServerMappings acc p.2.serverId).1)
    g.router
  { g with sd := sd', router := router' }

/-- A system state: orchestrator state plus the wall clock. -/
structure Sys where
  g : GState
  now : Nat
deriving Repr, DecidableEq

def initSys (timeout t0 : Nat) : Sys := { g := initG timeout, now := t0 }

/-- One invocation of the orchestrator's public API (or a clock advance).
Generated uuids and the `random.choice` draw appear as parameters. -/
inductive GOp where
  | registerTool (toolId : String) (tm : ToolMetadata)
  | unregisterTool (toolId : String)
  | registerServer (serverId name description version host : String)
      (port : Nat) (tags : List String) (metadata : List (String × String))
  | unregisterServer (serverId : String)
  | heartbeat (serverId : String)
  | route (toolName strategy : String) (pick : Nat)
  | complete (serverId : String)
  | reconcile
  | advance (d : Nat)

def applyG (s : Sys) : GOp → Sys
  | GOp.registerTool toolId tm =>
    { s with g := gRegisterTool s.g toolId tm s.now }
  | GOp.unregisterTool toolId =>
    { s with g := (gUnregisterTool s.g toolId).1 }
  | GOp.registerServer sid nm d v h p tags md =>
    { s with g := gRegisterServer s.g sid nm d v h p tags md s.now }
  | GOp.unregisterServer sid =>
    { s with g := (gUnregisterServer s.g sid).1 }
  | GOp.heartbeat sid =>
    { s with g := (gRecordHeartbeat s.g sid s.now).1 }
  | GOp.route t strat pick =>
    { s with g := (routeToolRequest s.g t strat pick).1 }
  | GOp.complete sid =>
    { s with g := gRecordToolCompletion s.g sid }
  | GOp.reconcile =>
    { s with g := gReconcile s.g s.now }
  | GOp.advance d =>
    { s with now := s.now + d }

/-- States reachable through the orchestrator's public API (with an
arbitrary monotone clock). -/
inductive ReachableG : Sys → Prop
  | init (timeout t0 : Nat) : ReachableG (initSys timeout t0)
  | step {s : Sys} (op : GOp) : ReachableG s → ReachableG (applyG s op)

/-! ## Branch analysis of the selection routine -/

theorem gsft_none_iff (sd : SDState) (st : RouterState)
    (t strat : String) (pick : Nat) :
    (getServerForTool sd st t strat pick).2 = none ↔
      availableFor sd st t = [] := by
  unfold getServerForTool availableFor
  cases hl : lookupA t st.toolToServers with
  | none => simp [hl]
  | some l =>
    simp only [Option.getD_some]
    cases hav : l.filterMap
        (fun id => (liveRecord sd id).map (fun r => (id, r))) with
    | nil => simp [hav]
    | cons f rest =>
      simp only [hav]
      by_cases hrr : strat = "round_robin"
      · simp [hrr]
      · by_cases hrand : strat = "random"
        · simp [hrr, hrand]
        · by_cases hll : strat = "least_loaded"
          · simp [hrr, hrand, hll]
          · simp [hrr, hrand, hll]

theorem gsft_none_state (sd : SDState) (st : RouterState)
    (t strat : String) (pick : Nat)
    (h : (getServerForTool sd st t strat pick).2 = none) :
    (getServerForTool sd st t strat pick).1 = st := by
  unfold getServerForTool at h ⊢
  cases hl : lookupA t st.toolToServers with
  | none => simp [hl]
  | some l =>
    simp only [hl] at h ⊢
    cases hav : l.filterMap
        (fun id => (liveRecord sd id).map (fun r => (id, r))) with
    | nil => simp [hav]
    | cons f rest =>
      simp only [hav] at h ⊢
      by_cases hrr : strat = "round_robin"
      · simp [hrr] at h
      · by_cases hrand : strat = "random"
        · simp [hrr, hrand] at h
        · by_cases hll : strat = "least_loaded"
          · simp [hrr, hrand, hll] at h
          · simp [hrr, hrand, hll] at h

theorem minByLoad_mem (st : RouterState) (a : String × ServerMetadata)
    (l : List (String × ServerMetadata)) : minByLoad st a l ∈ a :: l := by
  induction l generalizing a with
  | nil => simp [minByLoad]
  | cons b bs ih =>
    simp only [minByLoad]
    by_cases h : loadOf st b.1 < loadOf st a.1
    · simp only [h, if_pos]
      rcases List.mem_cons.mp (ih b) with h1 | h1
      · rw [h1]; exact List.mem_cons_of_mem _ (List.mem_cons_self _ _)
      · exact List.mem_cons_of_mem _ (List.mem_cons_of_mem _ h1)
    · simp only [h, if_neg, if_false]
      rcases List.mem_cons.mp (ih a) with h1 | h1
      · rw [h1]; exact List.mem_cons_self _ _
      · exact List.mem_cons_of_mem _ (List.mem_cons_of_mem _ h1)

theorem mem_available {sd : SDState} {l : List String}
    {sid : String} {m : ServerMetadata}
    (hmem : (sid, m) ∈ l.filterMap
      (fun id => (liveRecord sd id).map (fun r => (id, r)))) :
    liveRecord sd sid = some m ∧ sid ∈ l := by
  rcases List.mem_filterMap.mp hmem with ⟨id, hid, heq⟩
  cases hlr : liveRecord sd id with
  | none => rw [hlr] at heq; simp at heq
  | some r =>
    rw [hlr] at heq
    have heq2 : (id, r) = (sid, m) := by simpa using heq
    have h1 : id = sid := congrArg Prod.fst heq2
    have h2 : r = m := congrArg Prod.snd heq2
    subst h1; subst h2
    exact ⟨hlr, hid⟩

theorem gsft_some (sd : SDState) (st : RouterState)
    (t strat : String) (pick : Nat) (sid : String) (m : ServerMetadata)
    (h : (getServerForTool sd st t strat pick).2 = some (sid, m)) :
    liveRecord sd sid = some m ∧
    sid ∈ (lookupA t st.toolToServers).getD [] ∧
    (getServerForTool sd st t strat pick).1.serverLoad =
      insertA sid (loadOf st sid + 1) st.serverLoad := by
  unfold getServerForTool at h ⊢
  cases hl : lookupA t st.toolToServers with
  | none => simp [hl] at h
  | some l =>
    simp only [hl] at h
    dsimp only [Option.getD]
    cases hav : l.filterMap
        (fun id => (liveRecord sd id).map (fun r => (id, r))) with
    | nil => simp [hav] at h
    | cons f rest =>
      simp only [hav] at h
      dsimp only
      have hfmem : f ∈ l.filterMap
          (fun id => (liveRecord sd id).map (fun r => (id, r))) := by
        rw [hav]; exact List.mem_cons_self _ _
      by_cases hrr : strat = "round_robin"
      · rw [if_pos hrr] at h ⊢
        dsimp only at h ⊢
        have hf : f = (sid, m) := Option.some.inj h
        subst hf
        rcases mem_available hfmem with ⟨h1, h2⟩
        exact ⟨h1, h2, rfl⟩
      · rw [if_neg hrr] at h ⊢
        by_cases hrand : strat = "random"
        · rw [if_pos hrand] at h ⊢
          dsimp only at h ⊢
          have hf := Option.some.inj h
          have hcm : (f :: rest).get
              ⟨pick % (rest.length + 1), Nat.mod_lt _ (Nat.succ_pos _)⟩ ∈
              l.filterMap
                (fun id => (liveRecord sd id).map (fun r => (id, r))) := by
            rw [hav]; exact List.get_mem _ _ _
          rw [hf] at hcm
          rw [hf]
          rcases mem_available hcm with ⟨h1, h2⟩
          exact ⟨h1, h2, rfl⟩
        · rw [if_neg hrand] at h ⊢
          by_cases hll : strat = "least_loaded"
          · rw [if_pos hll] at h ⊢
            dsimp only at h ⊢
            have hf := Option.some.inj h
            have hcm : minByLoad st f rest ∈ l.filterMap
                (fun id => (liveRecord sd id).map (fun r => (id, r))) := by
              rw [hav]; exact minByLoad_mem st f rest
            rw [hf] at hcm
            rw [hf]
            rcases mem_available hcm with ⟨h1, h2⟩
            exact ⟨h1, h2, rfl⟩
          · rw [if_neg hll] at h ⊢
            dsimp only at h ⊢
            have hf : f = (sid, m) := Option.some.inj h
            subst hf
            rcases mem_available hfmem with ⟨h1, h2⟩
            exact ⟨h1, h2, rfl⟩

theorem gsft_not_rr_map (sd : SDState) (st : RouterState)
    (t strat : String) (pick : Nat) (hrr : strat ≠ "round_robin") :
    (getServerForTool sd st t strat pick).1.toolToServers =
      st.toolToServers := by
  unfold getServerForTool
  cases hl : lookupA t st.toolToServers with
  | none => rfl
  | some l =>
    dsimp only
    cases hav : l.filterMap
        (fun id => (liveRecord sd id).map (fun r => (id, r))) with
    | nil => rfl
    | cons f rest =>
      dsimp only
      rw [if_neg hrr]
      by_cases hrand : strat = "random"
      · rw [if_pos hrand]
      · rw [if_neg hrand]
        by_cases hll : strat = "least_loaded"
        · rw [if_pos hll]
        · rw [if_neg hll]

theorem gsft_rr_map (sd : SDState) (st : RouterState)
    (t : String) (pick : Nat) (sid : String) (m : ServerMetadata)
    (h : (getServerForTool sd st t "round_robin" pick).2 = some (sid, m)) :
    ∃ l, lookupA t st.toolToServers = some l ∧
      (getServerForTool sd st t "round_robin" pick).1.toolToServers =
        insertA t (l.tail ++ [sid]) st.toolToServers := by
  unfold getServerForTool at h ⊢
  cases hl : lookupA t st.toolToServers with
  | none => simp [hl] at h
  | some l =>
    simp only [hl] at h
    dsimp only
    cases hav : l.filterMap
        (fun id => (liveRecord sd id).map (fun r => (id, r))) with
    | nil => simp [hav] at h
    | cons f rest =>
      simp only [hav] at h
      dsimp only
      simp only [if_true] at h
      rw [if_pos rfl]
      have hf : f = (sid, m) := Option.some.inj h
      subst hf
      exact ⟨l, rfl, rfl⟩

theorem gsft_rr_head (sd : SDState) (st : RouterState) (t : String)
    (a : String) (as : List String) (ra : ServerMetadata)
    (hl : lookupA t st.toolToServers = some (a :: as))
    (ha : liveRecord sd a = some ra) :
    getServerForTool sd st t "round_robin" 0 =
      ({ toolToServers := insertA t (as ++ [a]) st.toolToServers,
         serverLoad := insertA a (loadOf st a + 1) st.serverLoad },
       some (a, ra)) := by
  unfold getServerForTool
  simp only [hl]
  simp [List.filterMap_cons, ha]

/-- State of the router after `k` successive round-robin selections for
one tool (the iterated form used to state the rotation claim). -/
def rrSteps (sd : SDState) (toolName : String) (st : RouterState) :
    Nat → RouterState
  | 0 => st
  | k + 1 =>
    (getServerForTool sd (rrSteps sd toolName st k) toolName
      "round_robin" 0).1

/-- The server picked by the `(k+1)`-st round-robin selection (`k`
selections already performed). -/
def rrSelect (sd : SDState) (toolName : String) (st : RouterState)
    (k : Nat) : Option (String × ServerMetadata) :=
  (getServerForTool sd (rrSteps sd toolName st k) toolName
    "round_robin" 0).2

theorem rrSteps_list (sd : SDState) (st : RouterState) (t : String)
    (l : List String)
    (hl : lookupA t st.toolToServers = some l)
    (hlive : ∀ id ∈ l, ∃ r, lookupA id sd.servers = some r ∧
      r.isActive = true) :
    ∀ k, k ≤ l.length →
      lookupA t (rrSteps sd t st k).toolToServers =
        some (l.drop k ++ l.take k) := by
  intro k
  induction k with
  | zero =>
    intro _
    simpa [rrSteps] using hl
  | succ k ih =>
    intro hk
    have hk' : k ≤ l.length := Nat.le_of_succ_le hk
    have hklt : k < l.length := hk
    have hcur := ih hk'
    have hdrop : l.drop k = l.get ⟨k, hklt⟩ :: l.drop (k + 1) := by
      rw [List.drop_eq_getElem_cons hklt]
      simp
    have hmem : l.get ⟨k, hklt⟩ ∈ l := List.get_mem _ _ _
    obtain ⟨r, hr, hract⟩ := hlive _ hmem
    have hlr : liveRecord sd (l.get ⟨k, hklt⟩) = some r := by
      unfold liveRecord sdGetServer
      rw [hr]
      dsimp only
      rw [if_pos hract]
    have hcur' : lookupA t (rrSteps sd t st k).toolToServers =
        some (l.get ⟨k, hklt⟩ :: (l.drop (k + 1) ++ l.take k)) := by
      rw [hcur, hdrop, List.cons_append]
    have hstep := gsft_rr_head sd (rrSteps sd t st k) t _ _ r hcur' hlr
    show lookupA t (getServerForTool sd (rrSteps sd t st k) t
        "round_robin" 0).1.toolToServers = _
    rw [hstep]
    dsimp only
    rw [lookupA_insertA_self]
    congr 1
    rw [List.append_assoc]
    congr 1
    rw [List.take_succ]
    congr 1
    simp [List.getElem?_eq_getElem hklt]

theorem rrSelect_get (sd : SDState) (st : RouterState) (t : String)
    (l : List String)
    (hl : lookupA t st.toolToServers = some l)
    (hlive : ∀ id ∈ l, ∃ r, lookupA id sd.servers = some r ∧
      r.isActive = true) :
    ∀ k, (h : k < l.length) →
      (rrSelect sd t st k).map (fun p => p.1) = some (l.get ⟨k, h⟩) := by
  intro k hklt
  have hcur := rrSteps_list sd st t l hl hlive k (Nat.le_of_lt hklt)
  have hdrop : l.drop k = l.get ⟨k, hklt⟩ :: l.drop (k + 1) := by
    rw [List.drop_eq_getElem_cons hklt]
    simp
  have hmem : l.get ⟨k, hklt⟩ ∈ l := List.get_mem _ _ _
  obtain ⟨r, hr, hract⟩ := hlive _ hmem
  have hlr : liveRecord sd (l.get ⟨k, hklt⟩) = some r := by
    unfold liveRecord sdGetServer
    rw [hr]
    dsimp only
    rw [if_pos hract]
  have hcur' : lookupA t (rrSteps sd t st k).toolToServers =
      some (l.get ⟨k, hklt⟩ :: (l.drop (k + 1) ++ l.take k)) := by
    rw [hcur, hdrop, List.cons_append]
  have hstep := gsft_rr_head sd (rrSteps sd t st k) t _ _ r hcur' hlr
  unfold rrSelect
  rw [hstep]
  simp

/-! ## Concrete fixtures used by counterexamples and witnesses -/

/-- A minimal server record used in concrete scenarios. -/
def mkServer (id : String) (active : Bool) (hb : Nat) : ServerMetadata :=
  { serverId := id, name := id, description := "", version := "1.0.0",
    host := "localhost", port := 8000, lastHeartbeat := hb, tags := [],
    metadata := [], isActive := active }

/-- A discovery state holding a dead server `d` and a live server `a`. -/
def sdDeadHead : SDState :=
  { servers := [("d", mkServer "d" false 0), ("a", mkServer "a" true 0)],
    tagsIndex := [], heartbeatTimeout := 300 }

/-- A router state mapping tool `t` to candidates `[d, a]` with the dead
server `d` at the head of the rotation. -/
def stDeadHead : RouterState :=
  { toolToServers := [("t", ["d", "a"])],
    serverLoad := [("d", 0), ("a", 0)] }

/-- A discovery state holding two live servers `s1`, `s2`. -/
def sdTwoLive : SDState :=
  { servers := [("s1", mkServer "s1" true 0), ("s2", mkServer "s2" true 0)],
    tagsIndex := [], heartbeatTimeout := 300 }

/-- A router state mapping tool `t` to the two live candidates. -/
def stTwoLive : RouterState :=
  { toolToServers := [("t", ["s1", "s2"])],
    serverLoad := [("s1", 0), ("s2", 0)] }

/-! ## Claims C1, C2, C10 -/

/-- C1: the claim says a successful round_robin selection with a dead
server at the head of the candidate list keeps that dead server in the
rotation (only the selected id moves to the tail, no candidate is
removed).  The code instead slices off the unfiltered head
(`self._tool_to_servers[tool_name][1:]`) — which is the dead server — and
appends the selected id, which also keeps its old slot: evaluating the
embedded code on the candidate list `[d, a]` with `d` dead and `a` live
selects `a` and leaves the rotation `[a, a]`, with `d` gone for good and
`a` duplicated.  This contradicts the code's own comment ("moving the
first server to the end", where the selected first server is
`available_servers[0]`) and the spec's stated rotation discipline. -/
theorem c1_dead_head_dropped_by_round_robin :
    ((getServerForTool sdDeadHead stDeadHead "t" "round_robin" 0).2).map
        (fun p => p.1) = some "a" ∧
    lookupA "t" (getServerForTool sdDeadHead stDeadHead "t" "round_robin"
        0).1.toolToServers = some ["a", "a"] ∧
    "d" ∉ (lookupA "t" (getServerForTool sdDeadHead stDeadHead "t"
        "round_robin" 0).1.toolToServers).getD [] := by
  refine ⟨?_, ?_, ?_⟩ <;> decide

/-- C2: for a tool mapped to `N` distinct servers that all exist in
ServiceDiscovery and are all live, the first `N` round-robin selections
return the `N` servers in registration order (hence each exactly once),
and the `(N+1)`-st selection returns the first server again. -/
theorem c2_round_robin_cycle (sd : SDState) (st : RouterState)
    (t : String) (l : List String)
    (hl : lookupA t st.toolToServers = some l)
    (hne : l ≠ [])
    (_hnd : l.Nodup)
    (hlive : ∀ id ∈ l, ∃ r, lookupA id sd.servers = some r ∧
      r.isActive = true) :
    (∀ k, (h : k < l.length) →
      (rrSelect sd t st k).map (fun p => p.1) = some (l.get ⟨k, h⟩)) ∧
    (rrSelect sd t st l.length).map (fun p => p.1) =
      some (l.get ⟨0, List.length_pos.mpr hne⟩) := by
  constructor
  · intro k h
    exact rrSelect_get sd st t l hl hlive k h
  · have hcur := rrSteps_list sd st t l hl hlive l.length (Nat.le_refl _)
    rw [List.drop_length, List.take_length, List.nil_append] at hcur
    have h0 : 0 < l.length := List.length_pos.mpr hne
    have hdrop : l = l.get ⟨0, h0⟩ :: l.drop 1 := by
      have h1 := List.drop_eq_getElem_cons h0
      simpa using h1
    obtain ⟨r, hr, hract⟩ := hlive _ (List.get_mem l 0 h0)
    have hlr : liveRecord sd (l.get ⟨0, h0⟩) = some r := by
      unfold liveRecord sdGetServer
      rw [hr]
      dsimp only
      rw [if_pos hract]
    have hcur' : lookupA t (rrSteps sd t st l.length).toolToServers =
        some (l.get ⟨0, h0⟩ :: l.drop 1) := by
      rw [hcur]
      exact congrArg some hdrop
    have hstep := gsft_rr_head sd (rrSteps sd t st l.length) t _ _ r
      hcur' hlr
    unfold rrSelect
    rw [hstep]
    simp

/-- Witness for C2 at a concrete two-server instance: both selections in
the first cycle hit `s1` then `s2`, and the third selection wraps to
`s1`. -/
theorem c2_round_robin_cycle_witness :
    (∀ k, (h : k < (["s1", "s2"] : List String).length) →
      (rrSelect sdTwoLive "t" stTwoLive k).map (fun p => p.1) =
        some ((["s1", "s2"] : List String).get ⟨k, h⟩)) ∧
    (rrSelect sdTwoLive "t" stTwoLive
        (["s1", "s2"] : List String).length).map (fun p => p.1) =
      some ((["s1", "s2"] : List String).get
        ⟨0, List.length_pos.mpr (by decide)⟩) :=
  c2_round_robin_cycle sdTwoLive stTwoLive "t" ["s1", "s2"] (by decide)
    (by decide) (by decide)
    (by
      intro id hid
      rcases List.mem_cons.mp hid with h | h
      · exact ⟨mkServer "s1" true 0, by rw [h]; decide, rfl⟩
      · rcases List.mem_cons.mp h with h' | h'
        · exact ⟨mkServer "s2" true 0, by rw [h']; decide, rfl⟩
        · cases h')

/-- C10: under every strategy other than `round_robin` (random,
least_loaded, or any unrecognized string), a successful selection leaves
the tool-to-servers mapping unchanged and modifies only the selected
server's load counter (set to its previous value plus one). -/
theorem c10_non_round_robin_frame (sd : SDState) (st : RouterState)
    (t strat : String) (pick : Nat) (sid : String) (m : ServerMetadata)
    (hstrat : strat ≠ "round_robin")
    (h : (getServerForTool sd st t strat pick).2 = some (sid, m)) :
    (getServerForTool sd st t strat pick).1.toolToServers =
      st.toolToServers ∧
    (getServerForTool sd st t strat pick).1.serverLoad =
      insertA sid (loadOf st sid + 1) st.serverLoad ∧
    (∀ x, x ≠ sid →
      lookupA x (getServerForTool sd st t strat pick).1.serverLoad =
        lookupA x st.serverLoad) := by
  refine ⟨gsft_not_rr_map sd st t strat pick hstrat, ?_, ?_⟩
  · exact (gsft_some sd st t strat pick sid m h).2.2
  · intro x hx
    rw [(gsft_some sd st t strat pick sid m h).2.2]
    exact lookupA_insertA_ne sid x _ st.serverLoad hx

/-- Witness for C10: a concrete `least_loaded` selection over two live
candidates picks a server, keeps the mapping intact and bumps only that
server's counter. -/
theorem c10_non_round_robin_frame_witness :
    (getServerForTool sdTwoLive stTwoLive "t" "least_loaded" 0).1.toolToServers =
      stTwoLive.toolToServers ∧
    (getServerForTool sdTwoLive stTwoLive "t" "least_loaded" 0).1.serverLoad =
      insertA "s1" (loadOf stTwoLive "s1" + 1) stTwoLive.serverLoad ∧
    (∀ x, x ≠ "s1" →
      lookupA x (getServerForTool sdTwoLive stTwoLive "t" "least_loaded"
          0).1.serverLoad = lookupA x stTwoLive.serverLoad) :=
  c10_non_round_robin_frame sdTwoLive stTwoLive "t" "least_loaded" 0 "s1"
    (mkServer "s1" true 0) (by decide) (by decide)

/-! ## Router reachability (claim C6) -/

/-- One invocation of the Router's mutating API.  The `select` operation
carries the ServiceDiscovery snapshot it consults and the `random.choice`
draw. -/
inductive ROp where
  | update (toolName serverId : String)
  | removeMapping (toolName serverId : String)
  | removeServer (serverId : String)
  | select (sd : SDState) (toolName strategy : String) (pick : Nat)
  | completeOp (serverId : String)
  | clearOp

def rApply (st : RouterState) : ROp → RouterState
  | ROp.update t s => updateToolMapping st t s
  | ROp.removeMapping t s => removeToolMapping st t s
  | ROp.removeServer s => (removeServerMappings st s).1
  | ROp.select sd t strat pick => (getServerForTool sd st t strat pick).1
  | ROp.completeOp s => recordToolCompletion st s
  | ROp.clearOp => initRouter

/-- Router state reached by a sequence of API calls on a fresh router. -/
def rRun (ops : List ROp) : RouterState := ops.foldl rApply initRouter

def LoadNonneg (st : RouterState) : Prop := ∀ p ∈ st.serverLoad, 0 ≤ p.2

theorem loadOf_nonneg {st : RouterState} (h : LoadNonneg st)
    (s : String) : 0 ≤ loadOf st s := by
  unfold loadOf
  cases hl : lookupA s st.serverLoad with
  | none => simp
  | some v =>
    simpa using h (s, v) (lookupA_some_mem hl)

theorem removeToolMapping_serverLoad (st : RouterState)
    (t s : String) : (removeToolMapping st t s).serverLoad =
      st.serverLoad := by
  unfold removeToolMapping
  cases lookupA t st.toolToServers with
  | none => rfl
  | some ids =>
    dsimp only
    by_cases hmem : s ∈ ids
    · rw [if_pos hmem]
      by_cases hnil : ids.erase s = []
      · rw [if_pos hnil]
      · rw [if_neg hnil]
    · rw [if_neg hmem]

theorem updateToolMapping_serverLoad (st : RouterState) (t s : String) :
    (updateToolMapping st t s).serverLoad = st.serverLoad ∨
    (updateToolMapping st t s).serverLoad =
      insertA s (loadOf st s) st.serverLoad := by
  unfold updateToolMapping
  dsimp only
  split
  · split
    · left; rfl
    · right; rfl
  · split
    · left; rfl
    · right; rfl

theorem recordToolCompletion_cases (st : RouterState) (s : String) :
    recordToolCompletion st s = st ∨
    ∃ v, lookupA s st.serverLoad = some v ∧ 0 < v ∧
      recordToolCompletion st s =
        { st with serverLoad := insertA s (v - 1) st.serverLoad } := by
  unfold recordToolCompletion
  cases hl : lookupA s st.serverLoad with
  | none => left; rfl
  | some v =>
    dsimp only
    by_cases hv : v > 0
    · right; exact ⟨v, rfl, hv, by rw [if_pos hv]⟩
    · left; rw [if_neg hv]

theorem loadNonneg_rApply {st : RouterState} (h : LoadNonneg st)
    (op : ROp) : LoadNonneg (rApply st op) := by
  cases op with
  | update t s =>
    intro p hp
    simp only [rApply] at hp
    rcases updateToolMapping_serverLoad st t s with h1 | h1
    · rw [h1] at hp
      exact h p hp
    · rw [h1] at hp
      rcases mem_insertA hp with h2 | h2
      · rw [h2]
        exact loadOf_nonneg h s
      · exact h p h2
  | removeMapping t s =>
    intro p hp
    simp only [rApply, removeToolMapping_serverLoad] at hp
    exact h p hp
  | removeServer s =>
    intro p hp
    simp only [rApply, removeServerMappings] at hp
    exact h p (mem_eraseA hp)
  | select sd t strat pick =>
    intro p hp
    simp only [rApply] at hp
    cases hres : (getServerForTool sd st t strat pick).2 with
    | none =>
      rw [gsft_none_state sd st t strat pick hres] at hp
      exact h p hp
    | some pr =>
      obtain ⟨sid, m⟩ := pr
      rw [(gsft_some sd st t strat pick sid m hres).2.2] at hp
      rcases mem_insertA hp with h1 | h1
      · rw [h1]
        have h2 := loadOf_nonneg h sid
        dsimp only
        omega
      · exact h p h1
  | completeOp s =>
    intro p hp
    simp only [rApply] at hp
    rcases recordToolCompletion_cases st s with h1 | ⟨v, hl, hv, h1⟩
    · rw [h1] at hp
      exact h p hp
    · rw [h1] at hp
      rcases mem_insertA hp with h2 | h2
      · rw [h2]
        dsimp only
        omega
      · exact h p h2
  | clearOp =>
    intro p hp
    simp [rApply, initRouter] at hp

theorem loadNonneg_foldl (ops : List ROp) :
    ∀ st : RouterState, LoadNonneg st →
      LoadNonneg (ops.foldl rApply st) := by
  induction ops with
  | nil => intro st h; exact h
  | cons op rest ih =>
    intro st h
    exact ih (rApply st op) (loadNonneg_rApply h op)

/-- C6: load counters are non-negative in every state reachable through
the Router's API from a fresh router (under any mix of operations,
strategies and discovery snapshots); every successful selection under any
strategy increments exactly the selected server's counter by one;
`record_tool_completion` decrements a tracked positive counter by exactly
one (rewriting only that key) and is a complete no-op — the state is
returned unchanged — on a zero, negative or untracked counter. -/
theorem c6_load_counter_discipline :
    (∀ ops : List ROp, ∀ p ∈ (rRun ops).serverLoad, 0 ≤ p.2) ∧
    (∀ (sd : SDState) (st : RouterState) (t strat : String) (pick : Nat)
      (sid : String) (m : ServerMetadata),
      (getServerForTool sd st t strat pick).2 = some (sid, m) →
      loadOf (getServerForTool sd st t strat pick).1 sid =
        loadOf st sid + 1) ∧
    (∀ (st : RouterState) (sid : String) (v : Int),
      lookupA sid st.serverLoad = some v → 0 < v →
      recordToolCompletion st sid =
        { st with serverLoad := insertA sid (v - 1) st.serverLoad }) ∧
    (∀ (st : RouterState) (sid : String), ¬ 0 < loadOf st sid →
      recordToolCompletion st sid = st) := by
  refine ⟨?_, ?_, ?_, ?_⟩
  · intro ops
    exact loadNonneg_foldl ops initRouter (by intro p hp; simp [initRouter] at hp)
  · intro sd st t strat pick sid m h
    unfold loadOf
    rw [(gsft_some sd st t strat pick sid m h).2.2]
    rw [lookupA_insertA_self]
    rfl
  · intro st sid v hl hv
    rcases recordToolCompletion_cases st sid with h1 | ⟨v', hl', hv', h1⟩
    · exfalso
      unfold recordToolCompletion at h1
      rw [hl] at h1
      dsimp only at h1
      rw [if_pos hv] at h1
      have h2 := congrArg RouterState.serverLoad h1
      dsimp only at h2
      have h3 : lookupA sid st.serverLoad = some (v - 1) := by
        rw [← h2, lookupA_insertA_self]
      rw [hl] at h3
      have h4 : v = v - 1 := Option.some.inj h3.symm |>.symm
      omega
    · rw [hl] at hl'
      have hvv : v = v' := Option.some.inj hl'.symm |>.symm
      rw [h1, hvv]
  · intro st sid hns
    rcases recordToolCompletion_cases st sid with h1 | ⟨v, hl, hv, h1⟩
    · exact h1
    · exfalso
      apply hns
      unfold loadOf
      rw [hl]
      simpa using hv

/-- Witness for C6 at concrete inputs: a reachable state with non-negative
counters; a concrete round-robin selection bumping the selected counter
from 0 to 1; a concrete decrement from 2 to 1; and a no-op completion for
an untracked id. -/
theorem c6_load_counter_discipline_witness :
    (∀ p ∈ (rRun [ROp.update "t" "s1",
        ROp.select sdTwoLive "t" "round_robin" 0,
        ROp.completeOp "s1"]).serverLoad, 0 ≤ p.2) ∧
    loadOf (getServerForTool sdTwoLive stTwoLive "t" "round_robin"
        0).1 "s1" = loadOf stTwoLive "s1" + 1 ∧
    recordToolCompletion
        { toolToServers := [("t", ["s1"])], serverLoad := [("s1", 2)] }
        "s1" =
      { toolToServers := [("t", ["s1"])],
        serverLoad := insertA "s1" ((2 : Int) - 1) [("s1", 2)] } ∧
    recordToolCompletion stTwoLive "s9" = stTwoLive :=
  ⟨c6_load_counter_discipline.1 _,
   c6_load_counter_discipline.2.1 sdTwoLive stTwoLive "t" "round_robin" 0
     "s1" (mkServer "s1" true 0) (by decide),
   c6_load_counter_discipline.2.2.1
     { toolToServers := [("t", ["s1"])], serverLoad := [("s1", 2)] }
     "s1" 2 (by decide) (by decide),
   c6_load_counter_discipline.2.2.2 stTwoLive "s9" (by decide)⟩

/-! ## Behaviour of `remove_server_mappings` (claims C7, C9, C3) -/

/-- With duplicate-free keys, membership determines the lookup. -/
theorem lookupA_eq_of_mem_nodup {α : Type} {m : List (String × α)}
    (hnd : (m.map (fun p => p.1)).Nodup) {k : String} {v : α}
    (hmem : (k, v) ∈ m) : lookupA k m = some v := by
  induction m with
  | nil => cases hmem
  | cons p ps ih =>
    have hnd0 : (p.1 :: ps.map (fun q => q.1)).Nodup := by simpa using hnd
    have hnd' := List.nodup_cons.mp hnd0
    rcases List.mem_cons.mp hmem with h | h
    · rw [← h]
      simp [lookupA]
    · have hk : (p.1 == k) = false := by
        have hkmem : k ∈ ps.map (fun q => q.1) :=
          List.mem_map.mpr ⟨(k, v), h, rfl⟩
        have : p.1 ≠ k := by
          intro he
          exact hnd'.1 (he ▸ hkmem)
        simpa using this
      simp only [lookupA, hk, if_neg, Bool.false_eq_true]
      exact ih (by simpa using hnd'.2) h

/-- Every surviving entry of `remove_server_mappings` comes from an entry
of the original map with the same key, its list either erased or kept
untouched (the latter only when it did not contain the server). -/
theorem mem_removeServerMappings {st : RouterState} {s : String}
    {p' : String × List String}
    (hp' : p' ∈ (removeServerMappings st s).1.toolToServers) :
    ∃ p ∈ st.toolToServers, p'.1 = p.1 ∧
      ((p'.2 = p.2.erase s ∧ s ∈ p.2 ∧ p.2.erase s ≠ []) ∨
        (p'.2 = p.2 ∧ s ∉ p.2)) := by
  unfold removeServerMappings at hp'
  dsimp only at hp'
  rcases List.mem_filterMap.mp hp' with ⟨p, hp, hf⟩
  by_cases hs : s ∈ p.2
  · rw [if_pos hs] at hf
    by_cases hnil : p.2.erase s = []
    · rw [if_pos hnil] at hf
      cases hf
    · rw [if_neg hnil] at hf
      have he := Option.some.inj hf
      exact ⟨p, hp, (congrArg Prod.fst he).symm,
        Or.inl ⟨(congrArg Prod.snd he).symm, hs, hnil⟩⟩
  · rw [if_neg hs] at hf
    have he := Option.some.inj hf
    exact ⟨p, hp, (congrArg Prod.fst he).symm,
      Or.inr ⟨(congrArg Prod.snd he).symm, hs⟩⟩

/-- The returned affected-tool list is exactly the tools whose candidate
list contained the server (with duplicate-free map keys). -/
theorem removeServerMappings_affected (st : RouterState) (s : String)
    (hkeys : (st.toolToServers.map (fun p => p.1)).Nodup) (t : String) :
    t ∈ (removeServerMappings st s).2 ↔
      ∃ ids, lookupA t st.toolToServers = some ids ∧ s ∈ ids := by
  unfold removeServerMappings
  dsimp only
  constructor
  · intro h
    rcases List.mem_map.mp h with ⟨p, hp, hpt⟩
    have hpf := List.mem_filter.mp hp
    subst hpt
    exact ⟨p.2, lookupA_eq_of_mem_nodup hkeys hpf.1, by simpa using hpf.2⟩
  · rintro ⟨ids, hl, hs⟩
    exact List.mem_map.mpr ⟨(t, ids),
      List.mem_filter.mpr ⟨lookupA_some_mem hl, by simpa using hs⟩, rfl⟩

theorem removeServerMappings_affected_nodup (st : RouterState)
    (s : String)
    (hkeys : (st.toolToServers.map (fun p => p.1)).Nodup) :
    (removeServerMappings st s).2.Nodup := by
  unfold removeServerMappings
  dsimp only
  exact List.Nodup.sublist
    (List.Sublist.map (fun p : String × List String => p.1)
      (List.filter_sublist st.toolToServers))
    hkeys

/-- After the purge no surviving candidate list contains the server,
provided no list held it more than once. -/
theorem removeServerMappings_not_mem (st : RouterState) (s : String)
    (hcnt : ∀ p ∈ st.toolToServers, p.2.count s ≤ 1)
    (t : String) (ids' : List String)
    (h : lookupA t (removeServerMappings st s).1.toolToServers =
      some ids') : s ∉ ids' := by
  rcases mem_removeServerMappings (lookupA_some_mem h) with
    ⟨p, hp, _, hshape⟩
  rcases hshape with ⟨he, _, _⟩ | ⟨he, hns⟩
  · intro hmem
    have h1 : 0 < (p.2.erase s).count s := List.count_pos_iff.mpr (he ▸ hmem)
    rw [List.count_erase_self] at h1
    have h2 := hcnt p hp
    omega
  · intro hmem
    exact hns (he ▸ hmem)

/-- A tool whose candidate list was exactly the removed server disappears
from the map entirely (duplicate-free keys, each list nodup). -/
theorem removeServerMappings_only_dropped (st : RouterState) (s : String)
    (hkeys : (st.toolToServers.map (fun p => p.1)).Nodup)
    (t : String) (hl : lookupA t st.toolToServers = some [s]) :
    lookupA t (removeServerMappings st s).1.toolToServers = none := by
  cases h : lookupA t (removeServerMappings st s).1.toolToServers with
  | none => rfl
  | some ids' =>
    exfalso
    rcases mem_removeServerMappings (lookupA_some_mem h) with
      ⟨p, hp, hkey, hshape⟩
    have hpl : lookupA p.1 st.toolToServers = some p.2 := by
      apply lookupA_eq_of_mem_nodup hkeys
      exact hp
    rw [← hkey] at hpl
    rw [hl] at hpl
    have hp2 : p.2 = [s] := (Option.some.inj hpl).symm
    rcases hshape with ⟨_, _, hne⟩ | ⟨_, hns⟩
    · rw [hp2] at hne
      exact hne (by simp)
    · rw [hp2] at hns
      exact hns (List.mem_singleton.mpr rfl)

theorem removeServerMappings_load (st : RouterState) (s : String) :
    lookupA s (removeServerMappings st s).1.serverLoad = none := by
  unfold removeServerMappings
  dsimp only
  exact lookupA_eraseA_self s st.serverLoad

/-- C7 counterexample: in a router state reached through the public API
(mapping tool `t` to `d` then `a`, then one round-robin selection with
`d` dead, which duplicates `a` in the rotation), `remove_server_mappings
a` reports `t` as affected but leaves a candidate list that still
contains `a`, because `list.remove` deletes only the first occurrence. -/
theorem c7_counterexample :
    "t" ∈ (removeServerMappings (rRun [ROp.update "t" "d",
        ROp.update "t" "a",
        ROp.select sdDeadHead "t" "round_robin" 0]) "a").2 ∧
    "a" ∈ (lookupA "t" (removeServerMappings (rRun [ROp.update "t" "d",
        ROp.update "t" "a",
        ROp.select sdDeadHead "t" "round_robin" 0]) "a").1.toolToServers).getD
      [] := by
  refine ⟨?_, ?_⟩ <;> decide

/-- C7 (amended): provided no candidate list holds the server more than
once (true of every state built by `update_tool_mapping`'s idempotent
append, violable only through the round-robin duplication slip) and the
map keys are duplicate-free (a dict invariant), `remove_server_mappings`
returns exactly the set of tool names whose list contained the server
(without repetition), afterwards no candidate list contains it, a tool
whose list was exactly `[s]` disappears from the map entirely, and the
server's load counter entry is dropped. -/
theorem c7_remove_server_mappings (st : RouterState) (s : String)
    (hkeys : (st.toolToServers.map (fun p => p.1)).Nodup)
    (hcnt : ∀ p ∈ st.toolToServers, p.2.count s ≤ 1) :
    (∀ t, t ∈ (removeServerMappings st s).2 ↔
      ∃ ids, lookupA t st.toolToServers = some ids ∧ s ∈ ids) ∧
    (removeServerMappings st s).2.Nodup ∧
    (∀ t ids', lookupA t (removeServerMappings st s).1.toolToServers =
        some ids' → s ∉ ids') ∧
    (∀ t, lookupA t st.toolToServers = some [s] →
      lookupA t (removeServerMappings st s).1.toolToServers = none) ∧
    lookupA s (removeServerMappings st s).1.serverLoad = none := by
  refine ⟨fun t => removeServerMappings_affected st s hkeys t,
    removeServerMappings_affected_nodup st s hkeys,
    fun t ids' h => removeServerMappings_not_mem st s hcnt t ids' h,
    fun t hl => removeServerMappings_only_dropped st s hkeys t hl,
    removeServerMappings_load st s⟩

/-- A two-tool fixture for the C7/C9 witnesses: `sum` is provided only by
`s1`, `avg` by `s1` and `s2`. -/
def stShared : RouterState :=
  { toolToServers := [("sum", ["s1"]), ("avg", ["s1", "s2"])],
    serverLoad := [("s1", 0), ("s2", 0)] }

/-- Witness for the amended C7 on the concrete fixture. -/
theorem c7_remove_server_mappings_witness :
    (∀ t, t ∈ (removeServerMappings stShared "s1").2 ↔
      ∃ ids, lookupA t stShared.toolToServers = some ids ∧ "s1" ∈ ids) ∧
    (removeServerMappings stShared "s1").2.Nodup ∧
    (∀ t ids', lookupA t
        (removeServerMappings stShared "s1").1.toolToServers =
        some ids' → "s1" ∉ ids') ∧
    (∀ t, lookupA t stShared.toolToServers = some ["s1"] →
      lookupA t (removeServerMappings stShared "s1").1.toolToServers =
        none) ∧
    lookupA "s1" (removeServerMappings stShared "s1").1.serverLoad =
      none :=
  c7_remove_server_mappings stShared "s1" (by decide) (by decide)

theorem sdUnregisterServer_snd (sd : SDState) (id : String) :
    (sdUnregisterServer sd id).2 = (lookupA id sd.servers).isSome := by
  unfold sdUnregisterServer
  cases h : lookupA id sd.servers with
  | none => rfl
  | some r => rfl

theorem sdUnregisterServer_lookup (sd : SDState) (id : String) :
    lookupA id (sdUnregisterServer sd id).1.servers = none := by
  unfold sdUnregisterServer
  cases h : lookupA id sd.servers with
  | none => exact h
  | some r =>
    dsimp only
    exact lookupA_eraseA_self id sd.servers

/-- Orchestrator states for the C9 counterexample: same server, different
sets of tools routed to it. -/
def gOneTool : GState :=
  { tr := initTR, sd := sdTwoLive,
    router := { toolToServers := [("sum", ["s1"])],
                serverLoad := [("s1", 0)] } }

def gTwoTools : GState :=
  { tr := initTR, sd := sdTwoLive,
    router := { toolToServers := [("sum", ["s1"]), ("avg", ["s1"])],
                serverLoad := [("s1", 0)] } }

/-- C9 counterexample: the claim says `unregister_server` returns the set
of affected tool names.  The code returns ServiceDiscovery's boolean: two
runs whose affected-tool sets differ (`{sum}` versus `{sum, avg}`) return
the identical value `true`, so the return value cannot be the affected
set (which is computed, logged and discarded). -/
theorem c9_counterexample :
    (gUnregisterServer gOneTool "s1").2 =
      (gUnregisterServer gTwoTools "s1").2 ∧
    (removeServerMappings gOneTool.router "s1").2 = ["sum"] ∧
    (removeServerMappings gTwoTools.router "s1").2 = ["sum", "avg"] := by
  refine ⟨?_, ?_, ?_⟩ <;> decide

/-- C9 (amended): `unregister_server` purges all of the server's routing
mappings (computed on the pre-state, before the ServiceDiscovery removal)
and removes the server from ServiceDiscovery, returning a boolean that
reports whether the server was registered; the affected tool names are
logged, not returned.  Under the no-duplicate-candidate hypothesis the
purge is complete: no tool's list still names the server. -/
theorem c9_unregister_server (g : GState) (sid : String)
    (hcnt : ∀ p ∈ g.router.toolToServers, p.2.count sid ≤ 1) :
    (gUnregisterServer g sid).2 = (lookupA sid g.sd.servers).isSome ∧
    (gUnregisterServer g sid).1.router =
      (removeServerMappings g.router sid).1 ∧
    lookupA sid (gUnregisterServer g sid).1.sd.servers = none ∧
    (∀ t ids', lookupA t
        (gUnregisterServer g sid).1.router.toolToServers = some ids' →
      sid ∉ ids') := by
  refine ⟨?_, ?_, ?_, ?_⟩
  · unfold gUnregisterServer
    exact sdUnregisterServer_snd g.sd sid
  · rfl
  · unfold gUnregisterServer
    exact sdUnregisterServer_lookup g.sd sid
  · intro t ids' h
    exact removeServerMappings_not_mem g.router sid hcnt t ids' h

/-- Witness for the amended C9 on the concrete two-tool fixture. -/
theorem c9_unregister_server_witness :
    (gUnregisterServer gTwoTools "s1").2 =
      (lookupA "s1" gTwoTools.sd.servers).isSome ∧
    (gUnregisterServer gTwoTools "s1").1.router =
      (removeServerMappings gTwoTools.router "s1").1 ∧
    lookupA "s1" (gUnregisterServer gTwoTools "s1").1.sd.servers =
      none ∧
    (∀ t ids', lookupA t
        (gUnregisterServer gTwoTools "s1").1.router.toolToServers =
        some ids' → "s1" ∉ ids') :=
  c9_unregister_server gTwoTools "s1" (by decide)

/-! ## Routing errors (claim C4) -/

theorem subOf_nil (hay : List Char) : subOf [] hay = true := by
  cases hay <;> simp [subOf, prefOf, List.isEmpty]

theorem containsCI_empty (s : String) : containsCI "" s = true := by
  unfold containsCI
  have h : lowerChars "" = [] := rfl
  rw [h]
  exact subOf_nil _

theorem gFindToolsByName_eq_filter (g : GState) (p : String) :
    gFindToolsByName g p =
      (trGetAllTools g.tr).filter (fun tm => containsCI p tm.name) := by
  unfold gFindToolsByName
  by_cases hp : p = ""
  · rw [if_neg (by simp [hp])]
    subst hp
    rw [List.filter_eq_self.mpr]
    intro tm _
    exact containsCI_empty tm.name
  · rw [if_pos hp]

theorem gFindToolsByName_empty_iff (g : GState) (p : String) :
    gFindToolsByName g p = [] ↔
      ∀ tm ∈ trGetAllTools g.tr, containsCI p tm.name = false := by
  rw [gFindToolsByName_eq_filter]
  rw [List.filter_eq_nil_iff]
  constructor
  · intro h tm hm
    simpa using h tm hm
  · intro h tm hm
    simp [h tm hm]

/-- C4: `route_tool_request` raises `ToolNotFoundError` exactly when no
registry tool's name contains the requested name as a case-insensitive
substring (the empty request name matches every tool, so it fails only on
an empty registry, exactly as the falsy-pattern code path does); when a
matching tool exists but `Router.get_server_for_tool` yields no live
candidate (equivalently, the liveness-filtered candidate list is empty),
it raises `ServerNotFoundError`; and it returns `(server_id, record)`
exactly when the selection returns that pair. -/
theorem c4_route_tool_request (g : GState) (toolName strategy : String)
    (pick : Nat) :
    ((routeToolRequest g toolName strategy pick).2 =
        RouteResult.toolNotFound ↔
      ∀ tm ∈ trGetAllTools g.tr, containsCI toolName tm.name = false) ∧
    ((routeToolRequest g toolName strategy pick).2 =
        RouteResult.serverNotFound ↔
      (∃ tm ∈ trGetAllTools g.tr, containsCI toolName tm.name = true) ∧
      availableFor g.sd g.router toolName = []) ∧
    (∀ sid m, (routeToolRequest g toolName strategy pick).2 =
        RouteResult.ok sid m ↔
      (∃ tm ∈ trGetAllTools g.tr, containsCI toolName tm.name = true) ∧
      (getServerForTool g.sd g.router toolName strategy pick).2 =
        some (sid, m)) := by
  by_cases hfind : gFindToolsByName g toolName = []
  · have hall : ∀ tm ∈ trGetAllTools g.tr,
        containsCI toolName tm.name = false :=
      (gFindToolsByName_empty_iff g toolName).mp hfind
    have hne : ¬ ∃ tm ∈ trGetAllTools g.tr,
        containsCI toolName tm.name = true := by
      rintro ⟨tm, hm, hc⟩
      rw [hall tm hm] at hc
      cases hc
    simp only [routeToolRequest, if_pos hfind]
    refine ⟨by simpa using hall, ?_, ?_⟩
    · constructor
      · intro h; cases h
      · rintro ⟨hex, _⟩; exact absurd hex hne
    · intro sid m
      constructor
      · intro h; cases h
      · rintro ⟨hex, _⟩; exact absurd hex hne
  · have hex : ∃ tm ∈ trGetAllTools g.tr,
        containsCI toolName tm.name = true := by
      rw [gFindToolsByName_eq_filter] at hfind
      rcases List.exists_mem_of_ne_nil _ hfind with ⟨tm, hm⟩
      have := List.mem_filter.mp hm
      exact ⟨tm, this.1, by simpa using this.2⟩
    have hnall : ¬ ∀ tm ∈ trGetAllTools g.tr,
        containsCI toolName tm.name = false := by
      intro hall
      rcases hex with ⟨tm, hm, hc⟩
      rw [hall tm hm] at hc
      cases hc
    simp only [routeToolRequest, if_neg hfind]
    cases hres : (getServerForTool g.sd g.router toolName strategy
        pick).2 with
    | none =>
      simp only [hres]
      refine ⟨?_, ?_, ?_⟩
      · constructor
        · intro h; cases h
        · intro hall; exact absurd hall hnall
      · constructor
        · intro _
          exact ⟨hex, (gsft_none_iff g.sd g.router toolName strategy
            pick).mp hres⟩
        · intro _; trivial
      · intro sid m
        constructor
        · intro h; cases h
        · rintro ⟨_, hsome⟩
          cases hsome
    | some pr =>
      obtain ⟨sid', m'⟩ := pr
      simp only [hres]
      refine ⟨?_, ?_, ?_⟩
      · constructor
        · intro h; cases h
        · intro hall; exact absurd hall hnall
      · constructor
        · intro h; cases h
        · rintro ⟨_, hav⟩
          have := (gsft_none_iff g.sd g.router toolName strategy
            pick).mpr hav
          rw [hres] at this
          cases this
      · intro sid m
        constructor
        · intro h
          cases h
          exact ⟨hex, rfl⟩
        · rintro ⟨_, hsome⟩
          have := Option.some.inj hsome
          rw [show sid' = sid from congrArg Prod.fst this,
            show m' = m from congrArg Prod.snd this]

/-! ## ServiceDiscovery liveness (claim C5) -/

/-- One invocation of the ServiceDiscovery API, driven by a monotone
wall clock: every time-dependent call reads the current clock value, and
`advance` models the passage of time between calls. -/
inductive SDOp where
  | register (serverId name description version host : String)
      (port : Nat) (tags : List String)
      (metadata : List (String × String))
  | unregister (serverId : String)
  | heartbeatOp (serverId : String)
  | checkOp
  | advance (d : Nat)

def sdApply : SDState × Nat → SDOp → SDState × Nat
  | (sd, t), SDOp.register sid nm ds v h p tags md =>
    (sdRegisterServer sd sid nm ds v h p tags md t, t)
  | (sd, t), SDOp.unregister sid => ((sdUnregisterServer sd sid).1, t)
  | (sd, t), SDOp.heartbeatOp sid => ((sdRecordHeartbeat sd sid t).1, t)
  | (sd, t), SDOp.checkOp => (sdCheckHealth sd t, t)
  | (sd, t), SDOp.advance d => (sd, t + d)

/-- Discovery state (with final clock) reached by an API run started on a
fresh instance at time `t0`. -/
def sdRun (timeout t0 : Nat) (ops : List SDOp) : SDState × Nat :=
  ops.foldl sdApply (initSD timeout, t0)

/-- The reachable-state invariant of ServiceDiscovery under a monotone
clock: no heartbeat lies in the future, and an inactive record is always
stale (only `check_health` flips the flag false, and it does so exactly
for stale records whose staleness then persists). -/
def SDInv (p : SDState × Nat) : Prop :=
  ∀ q ∈ p.1.servers, q.2.lastHeartbeat ≤ p.2 ∧
    (q.2.isActive = false →
      p.2 - q.2.lastHeartbeat > p.1.heartbeatTimeout)

theorem sdUnregisterServer_timeout (sd : SDState) (sid : String) :
    (sdUnregisterServer sd sid).1.heartbeatTimeout =
      sd.heartbeatTimeout := by
  unfold sdUnregisterServer
  cases lookupA sid sd.servers <;> rfl

theorem sdRecordHeartbeat_timeout (sd : SDState) (sid : String)
    (now : Nat) : (sdRecordHeartbeat sd sid now).1.heartbeatTimeout =
      sd.heartbeatTimeout := by
  unfold sdRecordHeartbeat
  cases lookupA sid sd.servers <;> rfl

theorem sdInv_apply {p : SDState × Nat} (h : SDInv p) (op : SDOp) :
    SDInv (sdApply p op) := by
  obtain ⟨sd, t⟩ := p
  cases op with
  | register sid nm ds v hs pt tags md =>
    dsimp only [sdApply]
    intro q hq
    simp only [sdRegisterServer] at hq
    rcases mem_insertA hq with h1 | h1
    · rw [h1]
      exact ⟨Nat.le_refl t, by intro hact; cases hact⟩
    · exact h q h1
  | unregister sid =>
    dsimp only [sdApply]
    intro q hq
    rw [sdUnregisterServer_timeout]
    simp only [sdUnregisterServer] at hq
    cases hl : lookupA sid sd.servers with
    | none =>
      rw [hl] at hq
      exact h q hq
    | some r =>
      rw [hl] at hq
      dsimp only at hq
      exact h q (mem_eraseA hq)
  | heartbeatOp sid =>
    dsimp only [sdApply]
    intro q hq
    rw [sdRecordHeartbeat_timeout]
    simp only [sdRecordHeartbeat] at hq
    cases hl : lookupA sid sd.servers with
    | none =>
      rw [hl] at hq
      exact h q hq
    | some r =>
      rw [hl] at hq
      dsimp only at hq
      rcases mem_insertA hq with h1 | h1
      · rw [h1]
        exact ⟨Nat.le_refl t, by intro hact; cases hact⟩
      · exact h q h1
  | checkOp =>
    dsimp only [sdApply]
    intro q hq
    simp only [sdCheckHealth] at hq
    rcases List.mem_map.mp hq with ⟨p0, hp0, hpe⟩
    have hinv := h p0 hp0
    by_cases hstale : t - p0.2.lastHeartbeat > sd.heartbeatTimeout
    · rw [if_pos hstale] at hpe
      rw [← hpe]
      exact ⟨hinv.1, fun _ => hstale⟩
    · rw [if_neg hstale] at hpe
      rw [← hpe]
      exact hinv
  | advance d =>
    dsimp only [sdApply]
    intro q hq
    have hinv := h q hq
    refine ⟨Nat.le_trans hinv.1 (Nat.le_add_right t d), ?_⟩
    intro hact
    have h1 : t - q.2.lastHeartbeat > sd.heartbeatTimeout := hinv.2 hact
    have h2 : t - q.2.lastHeartbeat ≤ t + d - q.2.lastHeartbeat :=
      Nat.sub_le_sub_right (Nat.le_add_right t d) _
    show t + d - q.2.lastHeartbeat > sd.heartbeatTimeout
    omega

theorem sdInv_run (timeout t0 : Nat) (ops : List SDOp) :
    SDInv (sdRun timeout t0 ops) := by
  have hgen : ∀ (l : List SDOp) (p : SDState × Nat), SDInv p →
      SDInv (l.foldl sdApply p) := by
    intro l
    induction l with
    | nil => intro p hp; exact hp
    | cons op rest ih =>
      intro p hp
      exact ih (sdApply p op) (sdInv_apply hp op)
  apply hgen
  intro q hq
  cases hq

/-- Eta-style record fact used below: re-setting the stored flag to its
own value is the identity. -/
theorem serverMetadata_set_isActive_self (r : ServerMetadata)
    (h : r.isActive = true) : { r with isActive := true } = r := by
  rw [← h]

/-- C5: in any state reachable through the ServiceDiscovery API under a
monotone clock, running `check_health` at any time `t'` not earlier than
the current clock leaves every record's liveness flag equal to
`now - last_heartbeat ≤ heartbeat_timeout` (in particular a record whose
heartbeat is older than the timeout is flipped inactive); and
`record_heartbeat` at `t'` returns false exactly for unknown ids, while
for a registered id it rewrites the record's heartbeat to `t'` and forces
the liveness flag back to true. -/
theorem c5_check_health_liveness (timeout t0 : Nat) (ops : List SDOp)
    (t' : Nat) (ht : (sdRun timeout t0 ops).2 ≤ t') :
    ((sdCheckHealth (sdRun timeout t0 ops).1 t').servers =
      (sdRun timeout t0 ops).1.servers.map (fun p =>
        (p.1, { p.2 with isActive :=
          (decide (t' - p.2.lastHeartbeat ≤
            (sdRun timeout t0 ops).1.heartbeatTimeout)) }))) ∧
    (∀ id, (sdRecordHeartbeat (sdRun timeout t0 ops).1 id t').2 =
      (lookupA id (sdRun timeout t0 ops).1.servers).isSome) ∧
    (∀ id, lookupA id
        (sdRecordHeartbeat (sdRun timeout t0 ops).1 id t').1.servers =
      (lookupA id (sdRun timeout t0 ops).1.servers).map (fun r =>
        { r with lastHeartbeat := t', isActive := true })) := by
  have hinv := sdInv_run timeout t0 ops
  refine ⟨?_, ?_, ?_⟩
  · unfold sdCheckHealth
    dsimp only
    apply List.map_congr_left
    intro p hp
    have hpinv := hinv p hp
    by_cases hstale : t' - p.2.lastHeartbeat >
        (sdRun timeout t0 ops).1.heartbeatTimeout
    · rw [if_pos hstale]
      have : decide (t' - p.2.lastHeartbeat ≤
          (sdRun timeout t0 ops).1.heartbeatTimeout) = false := by
        simpa using Nat.not_le_of_lt hstale
      rw [this]
    · rw [if_neg hstale]
      have hle : t' - p.2.lastHeartbeat ≤
          (sdRun timeout t0 ops).1.heartbeatTimeout :=
        Nat.le_of_not_lt hstale
      have hdec : decide (t' - p.2.lastHeartbeat ≤
          (sdRun timeout t0 ops).1.heartbeatTimeout) = true := by
        simpa using hle
      rw [hdec]
      have hact : p.2.isActive = true := by
        by_contra hact
        have hact' : p.2.isActive = false := by
          cases hfl : p.2.isActive
          · rfl
          · exact absurd hfl hact
        have h1 := hpinv.2 hact'
        have h2 : (sdRun timeout t0 ops).2 - p.2.lastHeartbeat ≤
            t' - p.2.lastHeartbeat :=
          Nat.sub_le_sub_right ht _
        omega
      have := serverMetadata_set_isActive_self p.2 hact
      rw [this]
  · intro id
    unfold sdRecordHeartbeat
    cases hl : lookupA id (sdRun timeout t0 ops).1.servers with
    | none => rfl
    | some r => rfl
  · intro id
    unfold sdRecordHeartbeat
    cases hl : lookupA id (sdRun timeout t0 ops).1.servers with
    | none =>
      dsimp only
      rw [hl]
      rfl
    | some r =>
      dsimp only
      rw [lookupA_insertA_self]
      rfl

/-- Witness for C5 on a concrete run: one server registered at time 0
with timeout 5, clock advanced to 10. -/
theorem c5_check_health_liveness_witness :
    ((sdCheckHealth (sdRun 5 0 [SDOp.register "s" "srv" "" "1.0.0"
        "localhost" 8000 [] [], SDOp.advance 10]).1 10).servers =
      (sdRun 5 0 [SDOp.register "s" "srv" "" "1.0.0" "localhost" 8000 []
        [], SDOp.advance 10]).1.servers.map (fun p =>
        (p.1, { p.2 with isActive :=
          (decide (10 - p.2.lastHeartbeat ≤
            (sdRun 5 0 [SDOp.register "s" "srv" "" "1.0.0" "localhost"
              8000 [] [], SDOp.advance 10]).1.heartbeatTimeout)) }))) ∧
    (∀ id, (sdRecordHeartbeat (sdRun 5 0 [SDOp.register "s" "srv" ""
        "1.0.0" "localhost" 8000 [] [], SDOp.advance 10]).1 id 10).2 =
      (lookupA id (sdRun 5 0 [SDOp.register "s" "srv" "" "1.0.0"
        "localhost" 8000 [] [], SDOp.advance 10]).1.servers).isSome) ∧
    (∀ id, lookupA id
        (sdRecordHeartbeat (sdRun 5 0 [SDOp.register "s" "srv" "" "1.0.0"
          "localhost" 8000 [] [], SDOp.advance 10]).1 id 10).1.servers =
      (lookupA id (sdRun 5 0 [SDOp.register "s" "srv" "" "1.0.0"
        "localhost" 8000 [] [], SDOp.advance 10]).1.servers).map (fun r =>
        { r with lastHeartbeat := 10, isActive := true })) :=
  c5_check_health_liveness 5 0 [SDOp.register "s" "srv" "" "1.0.0"
    "localhost" 8000 [] [], SDOp.advance 10] 10 (by decide)

/-! ## ToolRegistry search (claim C8) -/

/-- Lifts a predicate over an optional value, false when absent. -/
def optSome {α : Type} (P : α → Prop) : Option α → Prop
  | none => False
  | some a => P a

instance {α : Type} (P : α → Prop) [DecidablePred P] (o : Option α) :
    Decidable (optSome P o) :=
  match o with
  | none => isFalse (fun h => h)
  | some a => inferInstanceAs (Decidable (P a))

/-- Lifts a predicate over an optional value, true when absent. -/
def optHolds {α : Type} (P : α → Prop) : Option α → Prop
  | none => True
  | some a => P a

instance {α : Type} (P : α → Prop) [DecidablePred P] (o : Option α) :
    Decidable (optHolds P o) :=
  match o with
  | none => isTrue trivial
  | some a => inferInstanceAs (Decidable (P a))

theorem mem_map_fst_iff {α : Type} (m : List (String × α)) (i : String) :
    i ∈ m.map (fun p => p.1) ↔ (lookupA i m).isSome := by
  induction m with
  | nil => simp [lookupA]
  | cons p ps ih =>
    by_cases hp : p.1 == i
    · have : p.1 = i := by simpa using hp
      simp [lookupA, hp, this]
    · have hne : p.1 ≠ i := by simpa using hp
      simp only [List.map_cons, List.mem_cons, lookupA, hp]
      constructor
      · intro h
        rcases h with h | h
        · exact absurd h.symm hne
        · exact ih.mp h
      · intro h
        exact Or.inr (ih.mpr (by simpa [hp] using h))

theorem tagsFilter_none_iff (idx : List (String × List String)) :
    ∀ (tags : List String) (ids : List String),
      tagsFilter idx tags ids = none ↔
        ∃ tag ∈ tags, lookupA tag idx = none := by
  intro tags
  induction tags with
  | nil => intro ids; simp [tagsFilter]
  | cons tag rest ih =>
    intro ids
    unfold tagsFilter
    cases hl : lookupA tag idx with
    | none =>
      simp only [true_iff]
      exact ⟨tag, List.mem_cons_self _ _, hl⟩
    | some s =>
      dsimp only
      rw [ih]
      constructor
      · rintro ⟨tg, htg, hnone⟩
        exact ⟨tg, List.mem_cons_of_mem _ htg, hnone⟩
      · rintro ⟨tg, htg, hnone⟩
        rcases List.mem_cons.mp htg with h | h
        · subst h
          rw [hl] at hnone
          cases hnone
        · exact ⟨tg, h, hnone⟩

theorem tagsFilter_some_mem (idx : List (String × List String)) :
    ∀ (tags : List String) (ids res : List String),
      tagsFilter idx tags ids = some res →
      ∀ i, (i ∈ res ↔ i ∈ ids ∧
        ∀ tag ∈ tags, ∃ s, lookupA tag idx = some s ∧ i ∈ s) := by
  intro tags
  induction tags with
  | nil =>
    intro ids res h i
    simp only [tagsFilter, Option.some_inj] at h
    subst h
    simp
  | cons tag rest ih =>
    intro ids res h i
    unfold tagsFilter at h
    cases hl : lookupA tag idx with
    | none =>
      rw [hl] at h
      cases h
    | some s =>
      rw [hl] at h
      dsimp only at h
      rw [ih _ res h i]
      constructor
      · rintro ⟨hmem, hrest⟩
        have hf := List.mem_filter.mp hmem
        refine ⟨hf.1, ?_⟩
        intro tg htg
        rcases List.mem_cons.mp htg with he | he
        · subst he
          exact ⟨s, hl, by simpa using hf.2⟩
        · exact hrest tg he
      · rintro ⟨hmem, hall⟩
        refine ⟨List.mem_filter.mpr ⟨hmem, ?_⟩, ?_⟩
        · rcases hall tag (List.mem_cons_self _ _) with ⟨s', hs', hi⟩
          rw [hl] at hs'
          have : s' = s := (Option.some.inj hs').symm ▸ rfl
          simp [this ▸ hi]
        · intro tg htg
          exact hall tg (List.mem_cons_of_mem _ htg)

/-- With some requested tag entirely unindexed the search bails out with
the empty list, whatever the other filters. -/
theorem trFindTools_unindexed (tr : TRState) (tags : List String)
    (serverId namePattern : String)
    (h : ∃ tag ∈ tags, lookupA tag tr.tagsIndex = none) :
    trFindTools tr tags serverId namePattern = [] := by
  unfold trFindTools
  dsimp only
  rw [(tagsFilter_none_iff tr.tagsIndex tags _).mpr h]

/-- Index-level characterization of `find_tools` membership, for every
combination of arguments: a stored tool record is returned exactly when
its id survives the three index filters, where the server filter only
applies when the requested id is truthy and present in the server index. -/
theorem trFindTools_mem_iff (tr : TRState) (tags : List String)
    (serverId namePattern : String) (tm : ToolMetadata) :
    tm ∈ trFindTools tr tags serverId namePattern ↔
      ∃ i, lookupA i tr.tools = some tm ∧
        (∀ tag ∈ tags, ∃ s, lookupA tag tr.tagsIndex = some s ∧ i ∈ s) ∧
        ((serverId ≠ "" ∧ (lookupA serverId tr.serverTools).isSome) →
          i ∈ (lookupA serverId tr.serverTools).getD []) ∧
        (namePattern ≠ "" → containsCI namePattern tm.name = true) := by
  unfold trFindTools
  dsimp only
  by_cases hsc : serverId ≠ "" ∧ (lookupA serverId tr.serverTools).isSome
  · rw [if_pos hsc]
    cases htf : tagsFilter tr.tagsIndex tags
        ((tr.tools.map (fun p => p.1)).filter
          (fun i => i ∈ (lookupA serverId tr.serverTools).getD [])) with
    | none =>
      dsimp only
      rw [List.mem_nil_iff]
      constructor
      · intro h; cases h
      · rintro ⟨i, _, htags, _, _⟩
        rcases (tagsFilter_none_iff tr.tagsIndex tags _).mp htf with
          ⟨tag, htag, hnone⟩
        rcases htags tag htag with ⟨s, hs, _⟩
        rw [hnone] at hs
        cases hs
    | some ids2 =>
      dsimp only
      constructor
      · intro h
        rcases List.mem_filterMap.mp h with ⟨i, hi3, hlook⟩
        have hi2 : i ∈ ids2 := by
          by_cases hnp : namePattern ≠ ""
          · rw [if_pos hnp] at hi3
            exact (List.mem_filter.mp hi3).1
          · rw [if_neg hnp] at hi3
            exact hi3
        have hchar := (tagsFilter_some_mem tr.tagsIndex tags _ ids2
          htf i).mp hi2
        have hi1 := List.mem_filter.mp hchar.1
        refine ⟨i, hlook, hchar.2, fun _ => by simpa using hi1.2, ?_⟩
        intro hnp
        rw [if_pos hnp] at hi3
        have hpred := (List.mem_filter.mp hi3).2
        rw [hlook] at hpred
        simpa using hpred
      · rintro ⟨i, hlook, htags, hsrv, hname⟩
        have hi0 : i ∈ tr.tools.map (fun p => p.1) :=
          (mem_map_fst_iff tr.tools i).mpr (by rw [hlook]; rfl)
        have hi1 : i ∈ (tr.tools.map (fun p => p.1)).filter
            (fun i => i ∈ (lookupA serverId tr.serverTools).getD []) :=
          List.mem_filter.mpr ⟨hi0, by simpa using hsrv hsc⟩
        have hi2 : i ∈ ids2 :=
          (tagsFilter_some_mem tr.tagsIndex tags _ ids2 htf i).mpr
            ⟨hi1, htags⟩
        refine List.mem_filterMap.mpr ⟨i, ?_, hlook⟩
        by_cases hnp : namePattern ≠ ""
        · rw [if_pos hnp]
          refine List.mem_filter.mpr ⟨hi2, ?_⟩
          rw [hlook]
          simpa using hname hnp
        · rw [if_neg hnp]
          exact hi2
  · rw [if_neg hsc]
    cases htf : tagsFilter tr.tagsIndex tags
        (tr.tools.map (fun p => p.1)) with
    | none =>
      dsimp only
      rw [List.mem_nil_iff]
      constructor
      · intro h; cases h
      · rintro ⟨i, _, htags, _, _⟩
        rcases (tagsFilter_none_iff tr.tagsIndex tags _).mp htf with
          ⟨tag, htag, hnone⟩
        rcases htags tag htag with ⟨s, hs, _⟩
        rw [hnone] at hs
        cases hs
    | some ids2 =>
      dsimp only
      constructor
      · intro h
        rcases List.mem_filterMap.mp h with ⟨i, hi3, hlook⟩
        have hi2 : i ∈ ids2 := by
          by_cases hnp : namePattern ≠ ""
          · rw [if_pos hnp] at hi3
            exact (List.mem_filter.mp hi3).1
          · rw [if_neg hnp] at hi3
            exact hi3
        have hchar := (tagsFilter_some_mem tr.tagsIndex tags _ ids2
          htf i).mp hi2
        refine ⟨i, hlook, hchar.2, fun hc => absurd hc hsc, ?_⟩
        intro hnp
        rw [if_pos hnp] at hi3
        have hpred := (List.mem_filter.mp hi3).2
        rw [hlook] at hpred
        simpa using hpred
      · rintro ⟨i, hlook, htags, hsrv, hname⟩
        have hi0 : i ∈ tr.tools.map (fun p => p.1) :=
          (mem_map_fst_iff tr.tools i).mpr (by rw [hlook]; rfl)
        have hi2 : i ∈ ids2 :=
          (tagsFilter_some_mem tr.tagsIndex tags _ ids2 htf i).mpr
            ⟨hi0, htags⟩
        refine List.mem_filterMap.mpr ⟨i, ?_, hlook⟩
        by_cases hnp : namePattern ≠ ""
        · rw [if_pos hnp]
          refine List.mem_filter.mpr ⟨hi2, ?_⟩
          rw [hlook]
          simpa using hname hnp
        · rw [if_neg hnp]
          exact hi2

/-- The tool fixture for C8: a single tool `sum` registered by `s1` with
tag `math` under id `tool_1`. -/
def tmSum : ToolMetadata :=
  { name := "sum", description := "", inputSchema := [],
    outputSchema := [], tags := ["math"], serverId := some "s1",
    version := "1.0.0", lastUpdated := 0, isActive := true }

def trOneTool : TRState := trRegisterTool initTR "tool_1" tmSum 5

/-- C8 counterexample: querying for the tools of server `s2`, which has
no entry in the server index, returns `sum` — a tool of `s1` — because
`find_tools` silently skips the server filter when the requested id is
absent from `_server_tools`; the claim requires the result to contain
only tools belonging to `s2` (hence none). -/
theorem c8_counterexample :
    (trFindTools trOneTool [] "s2" "").length = 1 ∧
    ∀ tm ∈ trFindTools trOneTool [] "s2" "",
      tm.serverId = some "s1" := by
  refine ⟨?_, ?_⟩ <;> decide

/-- C8 (amended): with the tag and server indices consistent with the
stored records (the registry invariant maintained by register/unregister),
a tool is returned by `find_tools` iff its record is stored, its tag set
contains every requested tag, it belongs to the requested server whenever
a server id is given AND that id has at least one entry in the server
index — when the requested server id is absent from the index the server
filter is silently skipped rather than yielding an empty result — and its
name contains the requested pattern case-insensitively; if any requested
tag is entirely unindexed the result is the empty list. -/
theorem c8_find_tools (tr : TRState) (tags : List String)
    (serverId namePattern : String)
    (htagSound : ∀ p ∈ tr.tagsIndex, ∀ i ∈ p.2,
      optSome (fun tm => p.1 ∈ tm.tags) (lookupA i tr.tools))
    (htagComplete : ∀ q ∈ tr.tools, ∀ tag ∈ q.2.tags,
      q.1 ∈ (lookupA tag tr.tagsIndex).getD [])
    (hsrvSound : ∀ p ∈ tr.serverTools, ∀ i ∈ p.2,
      optSome (fun tm => tm.serverId = some p.1) (lookupA i tr.tools))
    (hsrvComplete : ∀ q ∈ tr.tools,
      optHolds (fun s => q.1 ∈ (lookupA s tr.serverTools).getD [])
        q.2.serverId) :
    ((∃ tag ∈ tags, lookupA tag tr.tagsIndex = none) →
      trFindTools tr tags serverId namePattern = []) ∧
    (∀ tm, tm ∈ trFindTools tr tags serverId namePattern ↔
      ∃ i, lookupA i tr.tools = some tm ∧
        (∀ tag ∈ tags, tag ∈ tm.tags) ∧
        ((serverId ≠ "" ∧ (lookupA serverId tr.serverTools).isSome) →
          tm.serverId = some serverId) ∧
        (namePattern ≠ "" → containsCI namePattern tm.name = true)) := by
  refine ⟨trFindTools_unindexed tr tags serverId namePattern, ?_⟩
  intro tm
  rw [trFindTools_mem_iff]
  constructor
  · rintro ⟨i, hlook, htags, hsrv, hname⟩
    refine ⟨i, hlook, ?_, ?_, hname⟩
    · intro tag htag
      rcases htags tag htag with ⟨s, hs, hi⟩
      have := htagSound (tag, s) (lookupA_some_mem hs) i hi
      rw [hlook] at this
      exact this
    · intro hc
      have hmem := hsrv hc
      rcases Option.isSome_iff_exists.mp hc.2 with ⟨ids, hids⟩
      rw [hids] at hmem
      have := hsrvSound (serverId, ids) (lookupA_some_mem hids) i
        (by simpa using hmem)
      rw [hlook] at this
      exact this
  · rintro ⟨i, hlook, htags, hsrv, hname⟩
    refine ⟨i, hlook, ?_, ?_, hname⟩
    · intro tag htag
      have hmem := htagComplete (i, tm) (lookupA_some_mem hlook) tag
        (htags tag htag)
      cases hidx : lookupA tag tr.tagsIndex with
      | none =>
        rw [hidx] at hmem
        cases hmem
      | some s =>
        rw [hidx] at hmem
        exact ⟨s, rfl, by simpa using hmem⟩
    · intro hc
      have h1 := hsrvComplete (i, tm) (lookupA_some_mem hlook)
      rw [hsrv hc] at h1
      exact h1

/-- Witness for the amended C8 on the concrete one-tool registry
(consistent indices built by `register_tool`). -/
theorem c8_find_tools_witness :
    ((∃ tag ∈ (["math"] : List String),
        lookupA tag trOneTool.tagsIndex = none) →
      trFindTools trOneTool ["math"] "s1" "su" = []) ∧
    (∀ tm, tm ∈ trFindTools trOneTool ["math"] "s1" "su" ↔
      ∃ i, lookupA i trOneTool.tools = some tm ∧
        (∀ tag ∈ (["math"] : List String), tag ∈ tm.tags) ∧
        (("s1" ≠ "" ∧ (lookupA "s1" trOneTool.serverTools).isSome) →
          tm.serverId = some "s1") ∧
        ("su" ≠ "" → containsCI "su" tm.name = true)) :=
  c8_find_tools trOneTool ["math"] "s1" "su" (by decide) (by decide)
    (by decide) (by decide)

/-! ## Orchestrator reachability (claim C3) -/

theorem lookupA_append_single {α : Type} (k : String) (v : α)
    (m : List (String × α)) (h : lookupA k m = none) :
    lookupA k (m ++ [(k, v)]) = some v := by
  induction m with
  | nil => simp [lookupA]
  | cons p ps ih =>
    by_cases hp : p.1 == k
    · simp [lookupA, hp] at h
    · simp only [lookupA, hp] at h
      simp only [List.cons_append, lookupA, hp]
      exact ih (by simpa using h)

/-- Entries of the map after `update_tool_mapping`: an old entry, an empty
placeholder, or the tool's list extended by the (previously absent)
server. -/
theorem mem_updateToolMapping {st : RouterState} {t s : String}
    {p' : String × List String}
    (hp' : p' ∈ (updateToolMapping st t s).toolToServers) :
    p' ∈ st.toolToServers ∨ p'.2 = [] ∨
    ∃ cur, p'.2 = cur ++ [s] ∧ s ∉ cur ∧
      (cur = [] ∨ lookupA t st.toolToServers = some cur) := by
  simp only [updateToolMapping] at hp'
  by_cases hk : (lookupA t st.toolToServers).isSome
  · rcases Option.isSome_iff_exists.mp hk with ⟨cur0, hcur0⟩
    rw [if_pos hk] at hp'
    rw [hcur0] at hp'
    dsimp only [Option.getD] at hp'
    by_cases hs : s ∈ cur0
    · rw [if_pos hs] at hp'
      exact Or.inl hp'
    · rw [if_neg hs] at hp'
      dsimp only at hp'
      rcases mem_insertA hp' with h1 | h1
      · right; right
        exact ⟨cur0, by rw [h1], hs, Or.inr hcur0⟩
      · exact Or.inl h1
  · have hnone : lookupA t st.toolToServers = none := by
      cases hl : lookupA t st.toolToServers with
      | none => rfl
      | some v => rw [hl] at hk; cases hk rfl
    rw [if_neg hk] at hp'
    rw [lookupA_append_single t [] st.toolToServers hnone] at hp'
    dsimp only [Option.getD] at hp'
    rw [if_neg (List.not_mem_nil s)] at hp'
    dsimp only [List.nil_append] at hp'
    rcases mem_insertA hp' with h1 | h1
    · right; right
      refine ⟨[], by rw [h1]; rfl, List.not_mem_nil s, Or.inl rfl⟩
    · rcases List.mem_append.mp h1 with h2 | h2
      · exact Or.inl h2
      · right; left
        rcases List.mem_singleton.mp h2 with h3
        rw [h3]

/-- Entries of the map after `remove_tool_mapping`: an old entry or an old
entry with the server erased from its list. -/
theorem mem_removeToolMapping {st : RouterState} {t s : String}
    {p' : String × List String}
    (hp' : p' ∈ (removeToolMapping st t s).toolToServers) :
    p' ∈ st.toolToServers ∨
    ∃ p ∈ st.toolToServers, p'.1 = p.1 ∧ p'.2 = p.2.erase s := by
  unfold removeToolMapping at hp'
  cases hl : lookupA t st.toolToServers with
  | none =>
    rw [hl] at hp'
    exact Or.inl hp'
  | some ids =>
    rw [hl] at hp'
    dsimp only at hp'
    by_cases hs : s ∈ ids
    · rw [if_pos hs] at hp'
      by_cases hnil : ids.erase s = []
      · rw [if_pos hnil] at hp'
        exact Or.inl (mem_eraseA hp')
      · rw [if_neg hnil] at hp'
        rcases mem_insertA hp' with h1 | h1
        · right
          exact ⟨(t, ids), lookupA_some_mem hl, by rw [h1],
            by rw [h1]⟩
        · exact Or.inl h1
    · rw [if_neg hs] at hp'
      exact Or.inl hp'

/-- After `remove_server_mappings` on a router whose candidate lists are
duplicate-free, no surviving list contains the removed server. -/
theorem removeServerMappings_mem_not_mem {st : RouterState} {s : String}
    (hnd : ∀ p ∈ st.toolToServers, p.2.Nodup)
    {p' : String × List String}
    (hp' : p' ∈ (removeServerMappings st s).1.toolToServers) :
    s ∉ p'.2 := by
  rcases mem_removeServerMappings hp' with ⟨p, hp, _, hshape⟩
  rcases hshape with ⟨he, _, _⟩ | ⟨he, hns⟩
  · intro hmem
    have h1 : 0 < (p.2.erase s).count s :=
      List.count_pos_iff.mpr (he ▸ hmem)
    rw [List.count_erase_self] at h1
    have h2 : p.2.count s ≤ 1 :=
      List.nodup_iff_count_le_one.mp (hnd p hp) s
    omega
  · intro hmem
    exact hns (he ▸ hmem)

/-- If the selection under `round_robin` succeeds and every stored
candidate of the tool is live, the selected server is the head of the
stored list. -/
theorem gsft_rr_success_head (sd : SDState) (st : RouterState)
    (t : String) (pick : Nat) (sid : String) (m : ServerMetadata)
    (h : (getServerForTool sd st t "round_robin" pick).2 = some (sid, m))
    (hall : ∀ id ∈ (lookupA t st.toolToServers).getD [],
      (liveRecord sd id).isSome) :
    ∃ as, lookupA t st.toolToServers = some (sid :: as) := by
  unfold getServerForTool at h
  cases hl : lookupA t st.toolToServers with
  | none => simp [hl] at h
  | some l =>
    simp only [hl] at h
    cases l with
    | nil => simp at h
    | cons a as =>
      have ha : (liveRecord sd a).isSome := by
        apply hall
        rw [hl]
        exact List.mem_cons_self _ _
      rcases Option.isSome_iff_exists.mp ha with ⟨ra, hra⟩
      simp [List.filterMap_cons, hra] at h
      exact ⟨as, by rw [h.1]⟩

theorem lookupA_map_snd {α β : Type} (f : α → β) (k : String)
    (m : List (String × α)) :
    lookupA k (m.map (fun p => (p.1, f p.2))) = (lookupA k m).map f := by
  induction m with
  | nil => simp [lookupA]
  | cons p ps ih =>
    by_cases hp : p.1 == k
    · simp [lookupA, hp]
    · simp only [List.map_cons, lookupA, hp]
      exact ih

theorem recordToolCompletion_toolToServers (st : RouterState)
    (s : String) : (recordToolCompletion st s).toolToServers =
      st.toolToServers := by
  rcases recordToolCompletion_cases st s with h | ⟨v, _, _, h⟩ <;> rw [h]

/-- The reconciliation purge fold: surviving entries come from the
starting router (same key, lists shrunk, duplicate-freeness preserved),
and no surviving list names any server that was inactive in the iterated
snapshot. -/
theorem reconcile_fold (l : List (String × ServerMetadata)) :
    ∀ acc : RouterState,
      (∀ p ∈ acc.toolToServers, p.2.Nodup) →
      (∀ p' ∈ (l.foldl (fun acc2 q =>
          if q.2.isActive then acc2
          else (removeServerMappings acc2 q.2.serverId).1)
          acc).toolToServers,
        ∃ p ∈ acc.toolToServers, p'.1 = p.1 ∧ (∀ x ∈ p'.2, x ∈ p.2) ∧
          p'.2.Nodup) ∧
      (∀ q ∈ l, q.2.isActive = false →
        ∀ p' ∈ (l.foldl (fun acc2 q =>
          if q.2.isActive then acc2
          else (removeServerMappings acc2 q.2.serverId).1)
          acc).toolToServers, q.2.serverId ∉ p'.2) := by
  induction l with
  | nil =>
    intro acc hacc
    refine ⟨?_, ?_⟩
    · intro p' hp'
      exact ⟨p', hp', rfl, fun x hx => hx, hacc p' hp'⟩
    · intro q hq
      cases hq
  | cons q0 rest ih =>
    intro acc hacc
    by_cases hact : q0.2.isActive
    · simp only [List.foldl_cons, if_pos hact]
      refine ⟨(ih acc hacc).1, ?_⟩
      intro q hq hqin p' hp'
      rcases List.mem_cons.mp hq with he | he
      · rw [he] at hqin
        rw [hqin] at hact
        cases hact
      · exact (ih acc hacc).2 q he hqin p' hp'
    · simp only [List.foldl_cons, if_neg hact]
      have hacc' : ∀ p ∈ (removeServerMappings acc
          q0.2.serverId).1.toolToServers, p.2.Nodup := by
        intro p hp
        rcases mem_removeServerMappings hp with ⟨p0, hp0, _, hsh⟩
        rcases hsh with ⟨he, _, _⟩ | ⟨he, _⟩
        · rw [he]
          exact (hacc p0 hp0).erase _
        · rw [he]
          exact hacc p0 hp0
      have hih := ih (removeServerMappings acc q0.2.serverId).1 hacc'
      refine ⟨?_, ?_⟩
      · intro p' hp'
        rcases hih.1 p' hp' with ⟨p1, hp1, hk1, hsub1, hnd1⟩
        rcases mem_removeServerMappings hp1 with ⟨p0, hp0, hk0, hsh⟩
        refine ⟨p0, hp0, hk1.trans hk0, ?_, hnd1⟩
        intro x hx
        have hx1 := hsub1 x hx
        rcases hsh with ⟨he, _, _⟩ | ⟨he, _⟩
        · rw [he] at hx1
          exact List.mem_of_mem_erase hx1
        · rw [he] at hx1
          exact hx1
      · intro q hq hqin p' hp'
        rcases List.mem_cons.mp hq with he | he
        · subst he
          intro hmem
          rcases hih.1 p' hp' with ⟨p1, hp1, _, hsub1, _⟩
          have hin1 := hsub1 _ hmem
          exact removeServerMappings_mem_not_mem hacc hp1 hin1
        · exact hih.2 q he hqin p' hp'

/-- The strengthened reachable-state invariant of the orchestrator:
every server id in a candidate list is registered and currently marked
active; candidate lists are duplicate-free; every discovery record's
stored `server_id` equals its dict key. -/
def GInv (s : Sys) : Prop :=
  (∀ p ∈ s.g.router.toolToServers, ∀ id ∈ p.2,
    ∃ r, lookupA id s.g.sd.servers = some r ∧ r.isActive = true) ∧
  (∀ p ∈ s.g.router.toolToServers, p.2.Nodup) ∧
  (∀ q ∈ s.g.sd.servers, q.2.serverId = q.1)

theorem ginv_transfer {s s' : Sys}
    (hrt : s'.g.router.toolToServers = s.g.router.toolToServers)
    (hsd : s'.g.sd.servers = s.g.sd.servers)
    (h : GInv s) : GInv s' := by
  refine ⟨?_, ?_, ?_⟩
  · rw [hrt, hsd]
    exact h.1
  · rw [hrt]
    exact h.2.1
  · rw [hsd]
    exact h.2.2

theorem ginv_registerTool (s : Sys) (toolId : String) (tm : ToolMetadata)
    (hsid : optHolds (fun sid => optSome (fun r => r.isActive = true)
      (lookupA sid s.g.sd.servers)) tm.serverId)
    (h : GInv s) : GInv (applyG s (GOp.registerTool toolId tm)) := by
  dsimp only [applyG, gRegisterTool]
  cases htm : tm.serverId with
  | none =>
    exact ginv_transfer rfl rfl h
  | some sid =>
    rw [htm] at hsid
    have hsid' : optSome (fun r => r.isActive = true)
        (lookupA sid s.g.sd.servers) := hsid
    have hlive : ∃ r, lookupA sid s.g.sd.servers = some r ∧
        r.isActive = true := by
      cases hl : lookupA sid s.g.sd.servers with
      | none =>
        rw [hl] at hsid'
        exact (hsid' : False).elim
      | some r =>
        rw [hl] at hsid'
        exact ⟨r, rfl, hsid'⟩
    refine ⟨?_, ?_, h.2.2⟩
    · intro p' hp' id hid
      rcases mem_updateToolMapping hp' with h1 | h1 | ⟨cur, hc, hns, hcp⟩
      · exact h.1 p' h1 id hid
      · rw [h1] at hid
        cases hid
      · rw [hc] at hid
        rcases List.mem_append.mp hid with h2 | h2
        · rcases hcp with he | he
          · rw [he] at h2
            cases h2
          · exact h.1 (tm.name, cur) (lookupA_some_mem he) id h2
        · rw [List.mem_singleton.mp h2]
          exact hlive
    · intro p' hp'
      rcases mem_updateToolMapping hp' with h1 | h1 | ⟨cur, hc, hns, hcp⟩
      · exact h.2.1 p' h1
      · rw [h1]
        exact List.nodup_nil
      · rw [hc]
        have hcnd : cur.Nodup := by
          rcases hcp with he | he
          · rw [he]
            exact List.nodup_nil
          · exact h.2.1 (tm.name, cur) (lookupA_some_mem he)
        rw [List.nodup_append]
        refine ⟨hcnd, List.nodup_singleton sid, ?_⟩
        intro x hx hx2
        rw [List.mem_singleton.mp hx2] at hx
        exact hns hx

theorem ginv_unregisterTool (s : Sys) (toolId : String)
    (h : GInv s) : GInv (applyG s (GOp.unregisterTool toolId)) := by
  dsimp only [applyG, gUnregisterTool]
  cases hg : trGetTool s.g.tr toolId with
  | none => exact ginv_transfer rfl rfl h
  | some tm =>
    dsimp only
    cases htm : tm.serverId with
    | none => exact ginv_transfer rfl rfl h
    | some sid =>
      refine ⟨?_, ?_, h.2.2⟩
      · intro p' hp' id hid
        rcases mem_removeToolMapping hp' with h1 | ⟨p, hp, _, he⟩
        · exact h.1 p' h1 id hid
        · rw [he] at hid
          exact h.1 p hp id (List.mem_of_mem_erase hid)
      · intro p' hp'
        rcases mem_removeToolMapping hp' with h1 | ⟨p, hp, _, he⟩
        · exact h.2.1 p' h1
        · rw [he]
          exact (h.2.1 p hp).erase _

theorem ginv_registerServer (s : Sys) (sid nm ds v hs : String)
    (port : Nat) (tags : List String) (md : List (String × String))
    (h : GInv s) :
    GInv (applyG s (GOp.registerServer sid nm ds v hs port tags md)) := by
  dsimp only [applyG, gRegisterServer, sdRegisterServer]
  refine ⟨?_, h.2.1, ?_⟩
  · intro p' hp' id hid
    by_cases hide : id = sid
    · subst hide
      refine ⟨_, lookupA_insertA_self id _ _, rfl⟩
    · rcases h.1 p' hp' id hid with ⟨r, hr, hract⟩
      refine ⟨r, ?_, hract⟩
      rw [lookupA_insertA_ne sid id _ _ hide]
      exact hr
  · intro q hq
    rcases mem_insertA hq with h1 | h1
    · rw [h1]
    · exact h.2.2 q h1

theorem ginv_heartbeat (s : Sys) (sid : String)
    (h : GInv s) : GInv (applyG s (GOp.heartbeat sid)) := by
  dsimp only [applyG, gRecordHeartbeat, sdRecordHeartbeat]
  cases hl : lookupA sid s.g.sd.servers with
  | none => exact ginv_transfer rfl rfl h
  | some r =>
    dsimp only
    refine ⟨?_, h.2.1, ?_⟩
    · intro p' hp' id hid
      by_cases hide : id = sid
      · subst hide
        refine ⟨_, lookupA_insertA_self id _ _, rfl⟩
      · rcases h.1 p' hp' id hid with ⟨r', hr', hract⟩
        refine ⟨r', ?_, hract⟩
        rw [lookupA_insertA_ne sid id _ _ hide]
        exact hr'
    · intro q hq
      rcases mem_insertA hq with h1 | h1
      · rw [h1]
        exact h.2.2 (sid, r) (lookupA_some_mem hl)
      · exact h.2.2 q h1

theorem ginv_unregisterServer (s : Sys) (sid : String)
    (h : GInv s) : GInv (applyG s (GOp.unregisterServer sid)) := by
  dsimp only [applyG, gUnregisterServer]
  refine ⟨?_, ?_, ?_⟩
  · intro p' hp' id hid
    rcases mem_removeServerMappings hp' with ⟨p, hp, _, hsh⟩
    have hidp : id ∈ p.2 := by
      rcases hsh with ⟨he, _, _⟩ | ⟨he, _⟩
      · rw [he] at hid
        exact List.mem_of_mem_erase hid
      · rw [he] at hid
        exact hid
    have hidne : id ≠ sid := by
      intro hide
      subst hide
      rcases hsh with ⟨he, _, _⟩ | ⟨he, hns⟩
      · rw [he] at hid
        have h1 : 0 < (p.2.erase id).count id :=
          List.count_pos_iff.mpr hid
        rw [List.count_erase_self] at h1
        have h2 : p.2.count id ≤ 1 :=
          List.nodup_iff_count_le_one.mp (h.2.1 p hp) id
        omega
      · rw [he] at hid
        exact hns hid
    rcases h.1 p hp id hidp with ⟨r, hr, hract⟩
    refine ⟨r, ?_, hract⟩
    unfold sdUnregisterServer
    cases hlu : lookupA sid s.g.sd.servers with
    | none => exact hr
    | some r0 =>
      dsimp only
      rw [lookupA_eraseA_ne sid id _ hidne]
      exact hr
  · intro p' hp'
    rcases mem_removeServerMappings hp' with ⟨p, hp, _, hsh⟩
    rcases hsh with ⟨he, _, _⟩ | ⟨he, _⟩
    · rw [he]
      exact (h.2.1 p hp).erase _
    · rw [he]
      exact h.2.1 p hp
  · intro q hq
    have hq' : q ∈ s.g.sd.servers := by
      revert hq
      unfold sdUnregisterServer
      cases hlu : lookupA sid s.g.sd.servers with
      | none => exact fun hq => hq
      | some r0 =>
        dsimp only
        exact fun hq => mem_eraseA hq
    exact h.2.2 q hq'

theorem ginv_route (s : Sys) (t strat : String) (pick : Nat)
    (h : GInv s) : GInv (applyG s (GOp.route t strat pick)) := by
  dsimp only [applyG, routeToolRequest]
  by_cases hfind : gFindToolsByName s.g t = []
  · rw [if_pos hfind]
    exact h
  · rw [if_neg hfind]
    cases hres : (getServerForTool s.g.sd s.g.router t strat pick).2 with
    | none =>
      exact @ginv_transfer s _
        (by
          dsimp only
          rw [gsft_none_state s.g.sd s.g.router t strat pick hres])
        rfl h
    | some pr =>
      obtain ⟨sid, m⟩ := pr
      dsimp only
      by_cases hrr : strat = "round_robin"
      · subst hrr
        rcases gsft_rr_map s.g.sd s.g.router t pick sid m hres with
          ⟨l, hl, hmap⟩
        have hall : ∀ id ∈ (lookupA t
            s.g.router.toolToServers).getD [],
            (liveRecord s.g.sd id).isSome := by
          intro id hid
          rw [hl] at hid
          rcases h.1 (t, l) (lookupA_some_mem hl) id (by simpa using hid)
            with ⟨r, hr, hract⟩
          unfold liveRecord sdGetServer
          rw [hr]
          dsimp only
          rw [if_pos hract]
          rfl
        rcases gsft_rr_success_head s.g.sd s.g.router t pick sid m hres
          hall with ⟨as, hl2⟩
        rw [hl] at hl2
        have hle : l = sid :: as := Option.some.inj hl2.symm |>.symm
        subst hle
        have hsidlive : ∃ r, lookupA sid s.g.sd.servers = some r ∧
            r.isActive = true := by
          rcases gsft_some s.g.sd s.g.router t "round_robin" pick sid m
            hres with ⟨hlr, _, _⟩
          unfold liveRecord sdGetServer at hlr
          cases hr : lookupA sid s.g.sd.servers with
          | none =>
            rw [hr] at hlr
            cases hlr
          | some r =>
            rw [hr] at hlr
            dsimp only at hlr
            by_cases hract : r.isActive = true
            · exact ⟨r, rfl, hract⟩
            · rw [if_neg (by simpa using hract)] at hlr
              cases hlr
        have hnd := h.2.1 (t, sid :: as) (lookupA_some_mem hl)
        have hndc := List.nodup_cons.mp (by simpa using hnd)
        refine ⟨?_, ?_, h.2.2⟩
        · intro p' hp' id hid
          rw [hmap] at hp'
          rcases mem_insertA hp' with h1 | h1
          · rw [h1] at hid
            dsimp only at hid
            rcases List.mem_append.mp hid with h2 | h2
            · exact h.1 (t, sid :: as) (lookupA_some_mem hl) id
                (List.mem_cons_of_mem _ (by simpa using h2))
            · rw [List.mem_singleton.mp h2]
              exact hsidlive
          · exact h.1 p' h1 id hid
        · intro p' hp'
          rw [hmap] at hp'
          rcases mem_insertA hp' with h1 | h1
          · rw [h1]
            dsimp only
            rw [List.nodup_append]
            refine ⟨hndc.2, List.nodup_singleton sid, ?_⟩
            intro x hx hx2
            rw [List.mem_singleton.mp hx2] at hx
            exact hndc.1 (by simpa using hx)
          · exact h.2.1 p' h1
      · exact @ginv_transfer s _
          (by
            dsimp only
            exact gsft_not_rr_map s.g.sd s.g.router t strat pick hrr)
          rfl h

theorem lookupA_sdCheckHealth (sd : SDState) (now : Nat) (k : String) :
    lookupA k (sdCheckHealth sd now).servers =
      (lookupA k sd.servers).map (fun r =>
        if now - r.lastHeartbeat > sd.heartbeatTimeout then
          { r with isActive := false } else r) := by
  unfold sdCheckHealth
  dsimp only
  have hgen : ∀ (l : List (String × ServerMetadata)),
      lookupA k (l.map (fun p => (p.1,
        if now - p.2.lastHeartbeat > sd.heartbeatTimeout then
          { p.2 with isActive := false } else p.2))) =
      (lookupA k l).map (fun r =>
        if now - r.lastHeartbeat > sd.heartbeatTimeout then
          { r with isActive := false } else r) := by
    intro l
    induction l with
    | nil => simp [lookupA]
    | cons p ps ih =>
      by_cases hp : p.1 == k
      · simp [lookupA, hp]
      · simp only [List.map_cons, lookupA, hp]
        exact ih
  exact hgen sd.servers

theorem ginv_reconcile (s : Sys) (h : GInv s) :
    GInv (applyG s GOp.reconcile) := by
  dsimp only [applyG, gReconcile]
  have hfold := reconcile_fold (sdCheckHealth s.g.sd s.now).servers
    s.g.router h.2.1
  refine ⟨?_, ?_, ?_⟩
  · intro p' hp' id hid
    rcases hfold.1 p' hp' with ⟨p, hp, _, hsub, _⟩
    have hidp := hsub id hid
    rcases h.1 p hp id hidp with ⟨r, hr, hract⟩
    have hlook := lookupA_sdCheckHealth s.g.sd s.now id
    rw [hr] at hlook
    by_cases hstale : s.now - r.lastHeartbeat > s.g.sd.heartbeatTimeout
    · exfalso
      have hq : (id, { r with isActive := false }) ∈
          (sdCheckHealth s.g.sd s.now).servers := by
        have hmem := lookupA_some_mem hr
        unfold sdCheckHealth
        dsimp only
        refine List.mem_map.mpr ⟨(id, r), hmem, ?_⟩
        dsimp only
        rw [if_pos hstale]
      have hsid : ({ r with isActive := false } :
          ServerMetadata).serverId = id := by
        have h3 := h.2.2 (id, r) (lookupA_some_mem hr)
        simpa using h3
      have h4 := hfold.2 (id, { r with isActive := false }) hq rfl p' hp'
      dsimp only at h4
      rw [hsid] at h4
      exact h4 hid
    · refine ⟨r, ?_, hract⟩
      rw [hlook]
      dsimp only [Option.map]
      rw [if_neg hstale]
  · intro p' hp'
    rcases hfold.1 p' hp' with ⟨p, hp, _, _, hnd⟩
    exact hnd
  · intro q hq
    unfold sdCheckHealth at hq
    dsimp only at hq
    rcases List.mem_map.mp hq with ⟨q0, hq0, he⟩
    have h3 := h.2.2 q0 hq0
    rw [← he]
    dsimp only
    by_cases hstale : s.now - q0.2.lastHeartbeat >
        s.g.sd.heartbeatTimeout
    · rw [if_pos hstale]
      exact h3
    · rw [if_neg hstale]
      exact h3

theorem ginv_complete (s : Sys) (sid : String) (h : GInv s) :
    GInv (applyG s (GOp.complete sid)) := by
  dsimp only [applyG, gRecordToolCompletion]
  exact @ginv_transfer s _
    (by
      dsimp only
      exact recordToolCompletion_toolToServers s.g.router sid)
    rfl h

theorem ginv_advance (s : Sys) (d : Nat) (h : GInv s) :
    GInv (applyG s (GOp.advance d)) := by
  dsimp only [applyG]
  exact @ginv_transfer s _ rfl rfl h

/-- Orchestrator states reachable through the public API under the
amended precondition: every `register_tool` call that carries a server id
names a server currently registered and currently marked active in
ServiceDiscovery.  All other operations are unrestricted. -/
inductive ReachableA : Sys → Prop
  | init (timeout t0 : Nat) : ReachableA (initSys timeout t0)
  | registerTool {s : Sys} (toolId : String) (tm : ToolMetadata)
      (hsid : optHolds (fun sid => optSome (fun r => r.isActive = true)
        (lookupA sid s.g.sd.servers)) tm.serverId) :
      ReachableA s → ReachableA (applyG s (GOp.registerTool toolId tm))
  | unregisterTool {s : Sys} (toolId : String) :
      ReachableA s → ReachableA (applyG s (GOp.unregisterTool toolId))
  | registerServer {s : Sys} (sid nm ds v hs : String) (port : Nat)
      (tags : List String) (md : List (String × String)) :
      ReachableA s →
      ReachableA (applyG s (GOp.registerServer sid nm ds v hs port tags
        md))
  | unregisterServer {s : Sys} (sid : String) :
      ReachableA s → ReachableA (applyG s (GOp.unregisterServer sid))
  | heartbeat {s : Sys} (sid : String) :
      ReachableA s → ReachableA (applyG s (GOp.heartbeat sid))
  | route {s : Sys} (t strat : String) (pick : Nat) :
      ReachableA s → ReachableA (applyG s (GOp.route t strat pick))
  | complete {s : Sys} (sid : String) :
      ReachableA s → ReachableA (applyG s (GOp.complete sid))
  | reconcile {s : Sys} :
      ReachableA s → ReachableA (applyG s GOp.reconcile)
  | advance {s : Sys} (d : Nat) :
      ReachableA s → ReachableA (applyG s (GOp.advance d))

theorem ginv_reachableA {s : Sys} (h : ReachableA s) : GInv s := by
  induction h with
  | init timeout t0 =>
    refine ⟨?_, ?_, ?_⟩ <;> intro p hp <;> cases hp
  | registerTool toolId tm hsid _ ih =>
    exact ginv_registerTool _ toolId tm hsid ih
  | unregisterTool toolId _ ih => exact ginv_unregisterTool _ toolId ih
  | registerServer sid nm ds v hs port tags md _ ih =>
    exact ginv_registerServer _ sid nm ds v hs port tags md ih
  | unregisterServer sid _ ih => exact ginv_unregisterServer _ sid ih
  | heartbeat sid _ ih => exact ginv_heartbeat _ sid ih
  | route t strat pick _ ih => exact ginv_route _ t strat pick ih
  | complete sid _ ih => exact ginv_complete _ sid ih
  | reconcile _ ih => exact ginv_reconcile _ ih
  | advance d _ ih => exact ginv_advance _ d ih

/-- A tool metadata record naming a server id never registered with
ServiceDiscovery. -/
def tmGhost : ToolMetadata :=
  { name := "sum", description := "", inputSchema := [],
    outputSchema := [], tags := [], serverId := some "ghost",
    version := "1.0.0", lastUpdated := 0, isActive := true }

/-- C3 counterexample: from a fresh orchestrator, a single public-API
call — `register_tool` with metadata naming the unknown server `ghost` —
reaches a state in which the Router's tool-to-servers map contains
`ghost` although ServiceDiscovery holds no such server and no removal is
in progress: `register_tool` performs no existence check on the supplied
server id. -/
theorem c3_counterexample :
    ReachableG (applyG (initSys 300 0)
      (GOp.registerTool "tool_1" tmGhost)) ∧
    (∃ p ∈ (applyG (initSys 300 0)
        (GOp.registerTool "tool_1" tmGhost)).g.router.toolToServers,
      "ghost" ∈ p.2) ∧
    lookupA "ghost" (applyG (initSys 300 0)
      (GOp.registerTool "tool_1" tmGhost)).g.sd.servers = none :=
  ⟨ReachableG.step (GOp.registerTool "tool_1" tmGhost)
    (ReachableG.init 300 0), by decide, by decide⟩

/-- C3 (amended): in every state reachable through the orchestrator's
public API — provided each `register_tool` call that carries a server id
names a server currently registered and currently active in
ServiceDiscovery — every server id appearing in the Router's
tool-to-servers map exists in ServiceDiscovery (operations being atomic,
no transient mid-removal states arise). -/
theorem c3_router_ids_registered (s : Sys) (h : ReachableA s) :
    ∀ p ∈ s.g.router.toolToServers, ∀ id ∈ p.2,
      (lookupA id s.g.sd.servers).isSome := by
  intro p hp id hid
  rcases (ginv_reachableA h).1 p hp id hid with ⟨r, hr, _⟩
  rw [hr]
  rfl

/-- Witness for the amended C3: a server is registered, then a tool is
registered for it (the amended precondition holds by computation), and
the routing entry the tool created — candidate `s1` of tool `sum` — is
registered in ServiceDiscovery. -/
theorem c3_router_ids_registered_witness :
    (lookupA "s1" (applyG (applyG (initSys 300 0)
      (GOp.registerServer "s1" "srv" "" "1.0.0" "localhost" 8000 []
        []))
      (GOp.registerTool "tool_1" tmSum)).g.sd.servers).isSome :=
  c3_router_ids_registered _
    (ReachableA.registerTool "tool_1" tmSum (by decide)
      (ReachableA.registerServer "s1" "srv" "" "1.0.0" "localhost" 8000
        [] [] (ReachableA.init 300 0)))
    ("sum", ["s1"]) (by decide) "s1" (by decide)
